import Mathlib

/-!
A verification model of the Akaros slab/magazine kernel object allocator
(`slab.c`, based on the Bonwick/Adams magazine paper).

The C code is embedded shallowly:
* machine pointers and sizes are `Nat` (addresses), with unsigned 64-bit
  subtraction made explicit where the C code relies on it;
* the three slab lists (`full`, `partial_...`, `empty`) are Lean lists whose
  head is the TAILQ head (all inserts in the C code are `TAILQ_INSERT_HEAD`);
* a magazine's `rounds` array is a Lean list whose head is the top of the
  stack (`rounds[nr_rounds - 1]`), so `push`/`pop` are `cons`/head;
* the bufctl hash table is modelled by the list of its entries: the C table
  is keyed by `buf_addr` and the operations (`__track_alloc` inserts at a
  bucket head, `__yank_bufctl` removes the first entry whose `buf_addr`
  matches) only ever depend on the set of entries, not on the bucketing;
  the load-driven rehash (`__try_hash_resize`) preserves the entry set and
  is therefore not modelled separately;
* `panic`/crashing paths are `Option.none`;
* calls out of the module (arena allocation, the dedicated magazine cache
  reached from the free path) are oracles passed as arguments.
-/

/-- Compile-time layout constants of the build: `PGSIZE` and
`sizeof(struct kmem_slab)` (the slab record stored at the tail of an
embedded-layout page). -/
structure Params where
  pgsize : Nat
  slabRecSz : Nat
deriving Repr, DecidableEq

/-- `struct kmem_slab`: one imported region carved into equal slots.
`base` is the start address of the imported region (for the embedded layout
this is the page start, and the record itself lives at
`base + PGSIZE - sizeof(struct kmem_slab)`).  `freelist` holds the addresses
of the free slots: for the embedded layout it is the singly-linked list
threaded through the first word of each free object (head =
`free_small_obj`); for the bufctl layout it is `bufctl_freelist` projected to
`buf_addr` (head = `BSD_LIST_FIRST`). -/
structure Slab where
  base : Nat
  num_total_obj : Nat
  num_busy_obj : Nat
  freelist : List Nat
deriving Repr, DecidableEq

/-- `struct kmem_bufctl`: external bookkeeping record; `my_slab` is the
back-pointer to the owning slab, identified by its region base address. -/
structure Bufctl where
  buf_addr : Nat
  my_slab : Nat
deriving Repr, DecidableEq

/-- `struct kmem_cache`: the slab back-end part plus the bufctl hash index.
`nr_cur_alloc` is an `Int` so the C decrement is exact. -/
structure KmemCache where
  obj_size : Nat
  import_amt : Nat
  use_bufctl : Bool
  has_dtor : Bool
  full_slab_list : List Slab
  partial_slab_list : List Slab
  empty_slab_list : List Slab
  nr_cur_alloc : Int
  alloc_hash : List Bufctl
deriving Repr, DecidableEq

/-- `struct kmem_magazine`: `rounds` with the stack top at the list head. -/
structure Magazine where
  rounds : List Nat
deriving Repr, DecidableEq

/-- `struct kmem_depot`. -/
structure Depot where
  not_empty : List Magazine
  empty : List Magazine
  nr_not_empty : Nat
  nr_empty : Nat
  magsize : Nat
  busy_count : Nat
  busy_start : Nat
deriving Repr, DecidableEq

/-- `struct kmem_pcpu_cache` (one CPU; the claims under study concern a
single CPU with no cross-CPU traffic). -/
structure PcpuCache where
  loaded : Magazine
  prev : Magazine
  magsize : Nat
  nr_allocs_ever : Nat
deriving Repr, DecidableEq

/-- The state touched by `kmem_cache_alloc` / `kmem_cache_free`. -/
structure FrontState where
  pcc : PcpuCache
  depot : Depot
  cache : KmemCache
deriving Repr, DecidableEq

/-- Externally visible effects of the paths under study. -/
inductive Ev where
  | dtorRun (addr : Nat)
  | toSlab (addr : Nat)
  | arenaFree (base : Nat) (size : Nat)
  | bufctlFreed (addr : Nat)
  | slabRecFreed (base : Nat)
deriving Repr, DecidableEq

/-- The slot addresses of a slab: `base + i * obj_size` for `i < total`. -/
def slabSlots (objsz : Nat) (s : Slab) : List Nat :=
  (List.range s.num_total_obj).map (fun i => s.base + i * objsz)

/-- All slabs owned by the cache, in the order the C code would reach them
when scanning full, then partial, then empty. -/
def allSlabs (cp : KmemCache) : List Slab :=
  cp.full_slab_list ++ cp.partial_slab_list ++ cp.empty_slab_list

/-- Locate the slab record with region base `b` (pointer identity in C). -/
def findSlab (cp : KmemCache) (b : Nat) : Option Slab :=
  (allSlabs cp).find? (fun s => s.base = b)

/-- In-place field update of the slab record with base `b` (the C code
mutates the record through its pointer, wherever it is linked). -/
def setSlab (l : List Slab) (b : Nat) (s' : Slab) : List Slab :=
  l.map (fun t => if t.base = b then s' else t)

/-- `TAILQ_REMOVE` of the (unique) slab with base `b`. -/
def eraseBase (l : List Slab) (b : Nat) : List Slab :=
  l.eraseP (fun t => decide (t.base = b))

/-- `kmem_cache_grow`.  `src` is the arena oracle: `some p` means
`arena_alloc` returned a region starting at `p`, `none` means it failed
(also covering the bufctl-mode failure to allocate the slab record, which
leaves the cache unchanged).  The embedded layout imports one page and
builds the free list in ascending address order; the bufctl layout imports
`import_amt` bytes and pushes a bufctl per slot at the head of the freelist,
so the list ends up in descending address order. -/
def growFn (P : Params) (cp : KmemCache) (src : Option Nat) : Option KmemCache :=
  match src with
  | none => none
  | some p =>
    let newSlab : Slab :=
      if cp.use_bufctl then
        let total := cp.import_amt / cp.obj_size
        { base := p, num_total_obj := total, num_busy_obj := 0,
          freelist := ((List.range total).map (fun i => p + i * cp.obj_size)).reverse }
      else
        let total := (P.pgsize - P.slabRecSz) / cp.obj_size
        { base := p, num_total_obj := total, num_busy_obj := 0,
          freelist := (List.range total).map (fun i => p + i * cp.obj_size) }
    some { cp with empty_slab_list := newSlab :: cp.empty_slab_list }

/-- First phase of `__kmem_alloc_from_slab`: look at the partial list; if
none, take a slab from the empty list — growing first when the empty list
is also exhausted — and move it to the head of the partial list.  `none` is
the error/panic exit (arena failure). -/
def ensurePartial (P : Params) (cp : KmemCache) (src : Option Nat) :
    Option KmemCache :=
  match cp.partial_slab_list with
  | _ :: _ => some cp
  | [] =>
    let grown : Option KmemCache :=
      if cp.empty_slab_list.isEmpty then growFn P cp src else some cp
    match grown with
    | none => none
    | some cp1 =>
      match cp1.empty_slab_list with
      | [] => none
      | s :: rest =>
        some { cp1 with empty_slab_list := rest,
                        partial_slab_list := s :: cp1.partial_slab_list }

/-- Second phase of `__kmem_alloc_from_slab`: pop one slot off the first
partial slab (embedded: head of the threaded freelist; bufctl: first
bufctl, whose record `__track_alloc` then inserts into the hash), bump
`num_busy_obj`, relocate the slab to the full list if it filled up, and
bump `nr_cur_alloc`. -/
def allocPop (cp1 : KmemCache) : Option (Nat × KmemCache) :=
  match cp1.partial_slab_list with
  | [] => none
  | s :: ps =>
    match s.freelist with
    | [] => none
    | r :: rest =>
      let s' : Slab := { s with freelist := rest,
                                num_busy_obj := s.num_busy_obj + 1 }
      let cp2 :=
        if cp1.use_bufctl then
          { cp1 with alloc_hash := ⟨r, s.base⟩ :: cp1.alloc_hash }
        else cp1
      let cp3 :=
        if s'.num_busy_obj = s'.num_total_obj then
          { cp2 with partial_slab_list := ps,
                     full_slab_list := s' :: cp2.full_slab_list }
        else
          { cp2 with partial_slab_list := s' :: ps }
      some (r, { cp3 with nr_cur_alloc := cp3.nr_cur_alloc + 1 })

/-- The locking/list part of `__kmem_alloc_from_slab`, before the
constructor runs: the two phases composed. -/
def allocCore (P : Params) (cp : KmemCache) (src : Option Nat) :
    Option (Nat × KmemCache) :=
  match ensurePartial P cp src with
  | none => none
  | some cp1 => allocPop cp1

/-- `__yank_bufctl`: find and unlink the first hash entry whose `buf_addr`
matches; `none` is the `panic("Could not find buf ...")` exit. -/
def yankBufctl (hash : List Bufctl) (buf : Nat) : Option (Bufctl × List Bufctl) :=
  match hash with
  | [] => none
  | bc :: rest =>
    if bc.buf_addr = buf then some (bc, rest)
    else
      match yankBufctl rest buf with
      | none => none
      | some (b, h) => some (b, bc :: h)

/-- `__kmem_free_to_slab`: locate the owning slab (embedded: round the
object address down to the page; bufctl: hash lookup and unlink), push the
slot onto the freelist, decrement `num_busy_obj` and `nr_cur_alloc`, and
relocate across lists exactly as the code does: `full -> partial_...` when
`num_busy_obj + 1 == num_total_obj` after the decrement, else
`partial -> empty` when `num_busy_obj` hit zero. -/
def freeToSlab (P : Params) (cp : KmemCache) (buf : Nat) : Option KmemCache :=
  let located : Option (Nat × KmemCache) :=
    if cp.use_bufctl then
      match yankBufctl cp.alloc_hash buf with
      | none => none
      | some (bc, hash') => some (bc.my_slab, { cp with alloc_hash := hash' })
    else
      some (buf / P.pgsize * P.pgsize, cp)
  match located with
  | none => none
  | some (b, cp1) =>
    match findSlab cp1 b with
    | none => none
    | some s =>
      let s' : Slab := { s with num_busy_obj := s.num_busy_obj - 1,
                                freelist := buf :: s.freelist }
      let cp2 : KmemCache :=
        { cp1 with
          full_slab_list := setSlab cp1.full_slab_list b s',
          partial_slab_list := setSlab cp1.partial_slab_list b s',
          empty_slab_list := setSlab cp1.empty_slab_list b s',
          nr_cur_alloc := cp1.nr_cur_alloc - 1 }
      if s'.num_busy_obj + 1 = s'.num_total_obj then
        some { cp2 with full_slab_list := eraseBase cp2.full_slab_list b,
                        partial_slab_list := s' :: cp2.partial_slab_list }
      else if s'.num_busy_obj = 0 then
        some { cp2 with partial_slab_list := eraseBase cp2.partial_slab_list b,
                        empty_slab_list := s' :: cp2.empty_slab_list }
      else
        some cp2

/-- `__kmem_alloc_from_slab`: `allocCore`, then the constructor (modelled as
`ctor : Option (Nat -> Bool)`, `true` = the C ctor returned nonzero =
failure).  On failure the slot goes straight back via `__kmem_free_to_slab`
and the call returns NULL (`(none, cp')`). -/
def allocFromSlab (P : Params) (cp : KmemCache) (src : Option Nat)
    (ctor : Option (Nat → Bool)) : Option (Option Nat × KmemCache) :=
  match allocCore P cp src with
  | none => none
  | some (r, cp1) =>
    match ctor with
    | none => some (some r, cp1)
    | some f =>
      if f r then
        match freeToSlab P cp1 r with
        | some cp2 => some (none, cp2)
        | none => none
      else
        some (some r, cp1)

/-- `mag_is_empty`. -/
def magIsEmpty (m : Magazine) : Bool :=
  m.rounds.length = 0

/-- `__return_to_depot`: head-insert on the list matching the magazine's
state, bumping the matching counter. -/
def returnToDepot (d : Depot) (m : Magazine) : Depot :=
  if magIsEmpty m then
    { d with empty := m :: d.empty, nr_empty := d.nr_empty + 1 }
  else
    { d with not_empty := m :: d.not_empty, nr_not_empty := d.nr_not_empty + 1 }

/-- `__swap_mags`. -/
def swapMags (p : PcpuCache) : PcpuCache :=
  { p with loaded := p.prev, prev := p.loaded }

/-- Unsigned 64-bit subtraction, as in `time - depot->busy_start` on
`uint64_t` operands. -/
def u64sub (a b : Nat) : Nat :=
  (a + 2 ^ 64 - b % 2 ^ 64) % 2 ^ 64

/-- `lock_depot`: the contention-accounting protocol run when the trylock
fails (`contended = true`, `now` the time sampled before blocking).
`rtimeout`, `rthreshold` are the tunables `resize_timeout_ns` /
`resize_threshold`; `magmax` is `KMC_MAG_MAX_SZ`. -/
def lockDepot (d : Depot) (contended : Bool) (now rtimeout rthreshold magmax : Nat) :
    Depot :=
  if !contended then d
  else if d.nr_not_empty = 0 then d
  else
    let d1 :=
      if rtimeout < u64sub now d.busy_start then
        { d with busy_count := 0, busy_start := now }
      else d
    let d2 := { d1 with busy_count := d1.busy_count + 1 }
    if rthreshold < d2.busy_count then
      { d2 with busy_count := 0, magsize := min magmax (d2.magsize + 1) }
    else d2

/-- `kmem_cache_alloc`, one CPU, uncontended locks.  `src`/`ctor` feed the
slab fall-through.  `fuel` bounds the `goto try_alloc` loop; `none` means
the fuel ran out (never the code's own behaviour — every theorem supplies
enough fuel).  A `some (none, st')` is the NULL return (arena failure or
constructor failure), with the front-end state as mutated so far. -/
def kmemCacheAlloc (P : Params) (st : FrontState) (src : Option Nat)
    (ctor : Option (Nat → Bool)) : Nat → Option (Option Nat × FrontState)
  | 0 => none
  | fuel + 1 =>
    let pcc := st.pcc
    match pcc.loaded.rounds with
    | r :: rest =>
      some (some r,
        { st with pcc := { pcc with loaded := ⟨rest⟩,
                                    nr_allocs_ever := pcc.nr_allocs_ever + 1 } })
    | [] =>
      if magIsEmpty pcc.prev = false then
        kmemCacheAlloc P { st with pcc := swapMags pcc } src ctor fuel
      else
        match st.depot.not_empty with
        | mag :: ms =>
          let d1 := { st.depot with not_empty := ms,
                                    nr_not_empty := st.depot.nr_not_empty - 1 }
          let d2 := returnToDepot d1 pcc.prev
          kmemCacheAlloc P
            { st with pcc := { pcc with prev := pcc.loaded, loaded := mag },
                      depot := d2 } src ctor fuel
        | [] =>
          match allocFromSlab P st.cache src ctor with
          | none => some (none, st)
          | some (res, c') => some (res, { st with cache := c' })

/-- `kmem_cache_free`, one CPU, uncontended locks.  `magAvail` is the
oracle for the non-blocking `kmem_cache_alloc(kmem_magazine_cache,
MEM_ATOMIC)` on the fall-through path (a fresh magazine has zero rounds,
per `__mag_ctor`).  The returned event list records destructor runs and
hand-offs to the slab layer; `none` is fuel exhaustion or the
`__yank_bufctl` panic. -/
def kmemCacheFree (P : Params) (st : FrontState) (buf : Nat) (magAvail : Bool) :
    Nat → Option (FrontState × List Ev)
  | 0 => none
  | fuel + 1 =>
    let pcc := st.pcc
    if pcc.loaded.rounds.length < pcc.magsize then
      some ({ st with pcc := { pcc with loaded := ⟨buf :: pcc.loaded.rounds⟩ } }, [])
    else if pcc.prev.rounds.length < pcc.magsize then
      kmemCacheFree P { st with pcc := swapMags pcc } buf magAvail fuel
    else
      let pcc1 := { pcc with magsize := st.depot.magsize }
      match st.depot.empty with
      | mag :: ms =>
        let d1 := { st.depot with empty := ms, nr_empty := st.depot.nr_empty - 1 }
        let d2 := returnToDepot d1 pcc1.prev
        kmemCacheFree P
          { st with pcc := { pcc1 with prev := pcc1.loaded, loaded := mag },
                    depot := d2 } buf magAvail fuel
      | [] =>
        if magAvail then
          let d1 := { st.depot with empty := [⟨[]⟩],
                                    nr_empty := st.depot.nr_empty + 1 }
          kmemCacheFree P { st with pcc := pcc1, depot := d1 } buf magAvail fuel
        else
          match freeToSlab P st.cache buf with
          | none => none
          | some c' =>
            some ({ st with pcc := pcc1, cache := c' },
              (if st.cache.has_dtor then [Ev.dtorRun buf] else []) ++ [Ev.toSlab buf])

/-- `SIZE_MAX`, the initial accumulator of the buffer-start scan in
`kmem_slab_destroy`. -/
def sizeMax : Nat := 2 ^ 64 - 1

/-- `kmem_slab_destroy`, as the list of effects it performs.  Embedded
layout: one `arena_free(ROUNDDOWN(a_slab, PGSIZE), PGSIZE)` (the record
lives at `base + PGSIZE - sizeof(record)`).  Bufctl layout: free every
bufctl on the freelist while folding `MIN` over their `buf_addr`s (starting
from `SIZE_MAX`), then `arena_free(buf_start, import_amt)`, then free the
slab record. -/
def slabDestroyEvs (P : Params) (cp : KmemCache) (s : Slab) : List Ev :=
  if cp.use_bufctl = false then
    [Ev.arenaFree ((s.base + P.pgsize - P.slabRecSz) / P.pgsize * P.pgsize) P.pgsize]
  else
    (s.freelist.map Ev.bufctlFreed)
      ++ [Ev.arenaFree (s.freelist.foldl min sizeMax) cp.import_amt,
          Ev.slabRecFreed s.base]

/-- `kmem_cache_reap`: walk the empty list destroying each slab.  Note the
code never unlinks the destroyed slabs (`TAILQ_REMOVE` / `TAILQ_INIT` are
absent), so the cache's `empty_slab_list` still carries them afterwards —
this faithful translation keeps the list unchanged. -/
def kmemCacheReap (P : Params) (cp : KmemCache) : KmemCache × List Ev :=
  (cp, cp.empty_slab_list.flatMap (slabDestroyEvs P cp))

/-- The addresses currently recorded in the bufctl hash index. -/
def hashAddrs (cp : KmemCache) : List Nat :=
  cp.alloc_hash.map Bufctl.buf_addr

/-- The busy (handed-out) slots of a slab: its slots minus its freelist. -/
def busyOf (objsz : Nat) (s : Slab) : List Nat :=
  (slabSlots objsz s).filter (fun a => decide (a ∉ s.freelist))

/-- Well-formedness of one slab record, relative to the cache's layout mode
and object size: the counters are consistent with the freelist, the
freelist is a duplicate-free subset of the slab's slots, the slab has at
least two slots (true of every slab the code builds: the embedded cutoff
and the bufctl import size both yield several objects per slab), and an
embedded slab occupies one page-aligned page with the record at its tail. -/
def SlabWF (P : Params) (ub : Bool) (objsz : Nat) (s : Slab) : Prop :=
  2 ≤ s.num_total_obj ∧
  s.num_busy_obj ≤ s.num_total_obj ∧
  s.freelist.length + s.num_busy_obj = s.num_total_obj ∧
  s.freelist.Nodup ∧
  (∀ a ∈ s.freelist, a ∈ slabSlots objsz s) ∧
  (ub = false → s.base % P.pgsize = 0 ∧ s.num_total_obj * objsz + P.slabRecSz ≤ P.pgsize)

/-- The cache-wide invariant the slab back-end maintains between
cache-lock critical sections. -/
def CacheInv (P : Params) (cp : KmemCache) : Prop :=
  0 < cp.obj_size ∧
  0 < P.slabRecSz ∧ P.slabRecSz ≤ P.pgsize ∧
  (∀ s ∈ allSlabs cp, SlabWF P cp.use_bufctl cp.obj_size s) ∧
  (∀ s ∈ cp.empty_slab_list, s.num_busy_obj = 0) ∧
  (∀ s ∈ cp.partial_slab_list, 0 < s.num_busy_obj ∧ s.num_busy_obj < s.num_total_obj) ∧
  (∀ s ∈ cp.full_slab_list, s.num_busy_obj = s.num_total_obj) ∧
  ((allSlabs cp).map Slab.base).Nodup ∧
  ((allSlabs cp).map (slabSlots cp.obj_size)).Pairwise (fun A B => ∀ a ∈ A, a ∉ B) ∧
  (cp.use_bufctl = false → cp.alloc_hash = []) ∧
  (∀ bc ∈ cp.alloc_hash, ∃ s ∈ allSlabs cp,
     s.base = bc.my_slab ∧ bc.buf_addr ∈ slabSlots cp.obj_size s ∧ bc.buf_addr ∉ s.freelist) ∧
  (hashAddrs cp).Nodup ∧
  (cp.use_bufctl = true → ∀ s ∈ allSlabs cp, ∀ a ∈ slabSlots cp.obj_size s,
     a ∉ s.freelist → a ∈ hashAddrs cp)

/-- Slot count of the slab `kmem_cache_grow` would build. -/
def growTotal (P : Params) (cp : KmemCache) : Nat :=
  if cp.use_bufctl then cp.import_amt / cp.obj_size
  else (P.pgsize - P.slabRecSz) / cp.obj_size

/-- Slot addresses of the slab `kmem_cache_grow` would build at `p`. -/
def growSlots (P : Params) (cp : KmemCache) (p : Nat) : List Nat :=
  (List.range (growTotal P cp)).map (fun i => p + i * cp.obj_size)

/-- Contract of the source arena for a region handed to `kmem_cache_grow`:
fresh memory (disjoint from every slab the cache already owns), page
alignment for the embedded layout, and a geometry giving at least two
objects per slab. -/
def GrowOK (P : Params) (cp : KmemCache) (src : Option Nat) : Prop :=
  match src with
  | none => True
  | some p =>
    (cp.use_bufctl = false → p % P.pgsize = 0) ∧
    p ∉ (allSlabs cp).map Slab.base ∧
    (∀ s ∈ allSlabs cp, ∀ a ∈ slabSlots cp.obj_size s, a ∉ growSlots P cp p) ∧
    2 ≤ growTotal P cp

instance (P : Params) (ub : Bool) (objsz : Nat) (s : Slab) :
    Decidable (SlabWF P ub objsz s) := by
  unfold SlabWF; infer_instance

instance (P : Params) (cp : KmemCache) : Decidable (CacheInv P cp) := by
  unfold CacheInv; infer_instance

instance (P : Params) (cp : KmemCache) (src : Option Nat) :
    Decidable (GrowOK P cp src) := by
  cases src <;> unfold GrowOK <;> infer_instance

/-- Claim C1's property of a cache state: counter/freelist consistency and
exact characterisation of the three lists by the busy count. -/
def C1Prop (cp : KmemCache) : Prop :=
  ∀ s ∈ allSlabs cp,
    s.num_busy_obj ≤ s.num_total_obj ∧
    s.freelist.length = s.num_total_obj - s.num_busy_obj ∧
    (s ∈ cp.empty_slab_list ↔ s.num_busy_obj = 0) ∧
    (s ∈ cp.partial_slab_list ↔ 0 < s.num_busy_obj ∧ s.num_busy_obj < s.num_total_obj) ∧
    (s ∈ cp.full_slab_list ↔ s.num_busy_obj = s.num_total_obj)

instance (cp : KmemCache) : Decidable (C1Prop cp) := by
  unfold C1Prop; infer_instance

/-- One front-end call, with its oracle data: the arena region a
fall-through allocation may import, or the success of the non-blocking
magazine allocation a fall-through free may attempt. -/
inductive KOp where
  | alloc (src : Option Nat)
  | free (buf : Nat) (magAvail : Bool)
deriving Repr, DecidableEq

/-- Number of object pointers cached anywhere in the magazine layer: the
two per-CPU magazines plus both depot lists. -/
def magRounds (st : FrontState) : Nat :=
  st.pcc.loaded.rounds.length + st.pcc.prev.rounds.length
    + (st.depot.not_empty.map (fun m => m.rounds.length)).sum
    + (st.depot.empty.map (fun m => m.rounds.length)).sum

/-- Run a sequence of front-end calls on one CPU, tracking the multiset of
objects currently held by callers (`outs`).  A free is only legal on an
object previously returned by an alloc and not yet freed — the
"balanced sequence" discipline of the claim. -/
def runOps (P : Params) (ctor : Option (Nat → Bool)) (fuel : Nat) :
    List KOp → FrontState → List Nat → Option (FrontState × List Nat)
  | [], st, outs => some (st, outs)
  | KOp.alloc src :: ops, st, outs =>
    match kmemCacheAlloc P st src ctor fuel with
    | none => none
    | some (none, st') => runOps P ctor fuel ops st' outs
    | some (some r, st') => runOps P ctor fuel ops st' (r :: outs)
  | KOp.free buf magAvail :: ops, st, outs =>
    if buf ∈ outs then
      match kmemCacheFree P st buf magAvail fuel with
      | none => none
      | some (st', _) => runOps P ctor fuel ops st' (outs.erase buf)
    else none

/-- Modelled from the spec's wording of the contention-driven resize
(claim C2): after a contended acquisition, if there are no not-empty
magazines skip accounting; otherwise if the sampled time is later than
`busy_start + resize_timeout`, reset `busy_count` and `busy_start`;
increment `busy_count`; if it exceeds `resize_threshold`, reset it and bump
`magsize` by one, capped at the maximum.  Stated with ordinary arithmetic
comparison, for comparison against the code's unsigned subtraction. -/
def lockDepotClaim (d : Depot) (now rtimeout rthreshold magmax : Nat) : Depot :=
  if d.nr_not_empty = 0 then d
  else
    let d1 :=
      if d.busy_start + rtimeout < now then
        { d with busy_count := 0, busy_start := now }
      else d
    let d2 := { d1 with busy_count := d1.busy_count + 1 }
    if rthreshold < d2.busy_count then
      { d2 with busy_count := 0, magsize := min magmax (d2.magsize + 1) }
    else d2

/-- Tail of `__kmem_free_to_slab` once the owning slab record is in hand
(`a_slab` located either by `ROUNDDOWN` or through the bufctl): push the
slot onto the threaded freelist, fix both counters, and relocate the slab
between the cache's lists as its busy count dictates. -/
def freeTail (cp1 : KmemCache) (s : Slab) (buf : Nat) : KmemCache :=
  let s' : Slab := { s with num_busy_obj := s.num_busy_obj - 1,
                            freelist := buf :: s.freelist }
  let cp2 : KmemCache :=
    { cp1 with
      full_slab_list := setSlab cp1.full_slab_list s.base s',
      partial_slab_list := setSlab cp1.partial_slab_list s.base s',
      empty_slab_list := setSlab cp1.empty_slab_list s.base s',
      nr_cur_alloc := cp1.nr_cur_alloc - 1 }
  if s'.num_busy_obj + 1 = s'.num_total_obj then
    { cp2 with full_slab_list := eraseBase cp2.full_slab_list s.base,
               partial_slab_list := s' :: cp2.partial_slab_list }
  else if s'.num_busy_obj = 0 then
    { cp2 with partial_slab_list := eraseBase cp2.partial_slab_list s.base,
               empty_slab_list := s' :: cp2.empty_slab_list }
  else
    cp2


/-! ### Theorems -/

/-- C2: on every contended acquisition of the depot lock, the accounting
behaves exactly as the spec describes it: no change when the depot has no
not-empty magazine; otherwise window reset when the pre-block time sample
exceeds `busy_start + resize_timeout`, increment of `busy_count`, and a
threshold-triggered bump of `magsize` capped at the maximum.  The clock
hypotheses say the sample is a 64-bit time no earlier than the recorded
window start, under which the code's unsigned subtraction agrees with the
spec's comparison. -/
theorem C2_lock_depot_contended_accounting
    (d : Depot) (now rtimeout rthreshold magmax : Nat)
    (hmono : d.busy_start ≤ now) (hnow : now < 2 ^ 64) :
    lockDepot d true now rtimeout rthreshold magmax =
      lockDepotClaim d now rtimeout rthreshold magmax := by
  have h2 : (2 : Nat) ^ 64 = 18446744073709551616 := by norm_num
  have hb : d.busy_start % 2 ^ 64 = d.busy_start :=
    Nat.mod_eq_of_lt (lt_of_le_of_lt hmono hnow)
  have hsub : u64sub now d.busy_start = now - d.busy_start := by
    unfold u64sub
    rw [hb, h2] at *
    omega
  by_cases h0 : d.nr_not_empty = 0
  · simp [lockDepot, lockDepotClaim, h0]
  · by_cases ht : d.busy_start + rtimeout < now
    · have ht' : rtimeout < u64sub now d.busy_start := by rw [hsub]; omega
      simp [lockDepot, lockDepotClaim, h0, ht, ht']
    · have ht' : ¬ rtimeout < u64sub now d.busy_start := by rw [hsub]; omega
      simp [lockDepot, lockDepotClaim, h0, ht, ht']

/-- Witness for C2 at a concrete depot state. -/
theorem C2_lock_depot_contended_accounting_witness :
    lockDepot ⟨[⟨[1]⟩], [], 1, 0, 3, 1, 5⟩ true 50 10 1 7 =
      lockDepotClaim ⟨[⟨[1]⟩], [], 1, 0, 3, 1, 5⟩ 50 10 1 7 :=
  C2_lock_depot_contended_accounting ⟨[⟨[1]⟩], [], 1, 0, 3, 1, 5⟩ 50 10 1 7
    (by decide) (by norm_num)

/-- C9: when the loaded magazine has room, `kmem_cache_free` pushes the
pointer onto it and returns; the previous magazine, the local `magsize`,
the depot (lists and counters), the whole cache record (slab lists, hash
index, `nr_cur_alloc`) are unchanged, and no destructor runs. -/
theorem C9_free_fast_path_frame
    (P : Params) (st : FrontState) (buf : Nat) (magAvail : Bool) (fuel : Nat)
    (h : st.pcc.loaded.rounds.length < st.pcc.magsize) :
    ∃ st', kmemCacheFree P st buf magAvail (fuel + 1) = some (st', []) ∧
      st'.pcc.loaded.rounds = buf :: st.pcc.loaded.rounds ∧
      st'.pcc.prev = st.pcc.prev ∧
      st'.pcc.magsize = st.pcc.magsize ∧
      st'.depot = st.depot ∧
      st'.cache = st.cache := by
  refine ⟨{ st with pcc := { st.pcc with loaded := ⟨buf :: st.pcc.loaded.rounds⟩ } },
    ?_, rfl, rfl, rfl, rfl, rfl⟩
  simp [kmemCacheFree, h]

/-- Witness for C9 at a concrete state. -/
theorem C9_free_fast_path_frame_witness :
    ∃ st', kmemCacheFree ⟨16, 4⟩
        ⟨⟨⟨[7]⟩, ⟨[]⟩, 2, 0⟩, ⟨[], [], 0, 0, 2, 0, 0⟩,
         ⟨4, 0, false, false, [], [], [], 0, []⟩⟩ 9 false 1 = some (st', []) ∧
      st'.pcc.loaded.rounds = 9 :: [7] ∧
      st'.pcc.prev = ⟨[]⟩ ∧
      st'.pcc.magsize = 2 ∧
      st'.depot = ⟨[], [], 0, 0, 2, 0, 0⟩ ∧
      st'.cache = ⟨4, 0, false, false, [], [], [], 0, []⟩ :=
  C9_free_fast_path_frame ⟨16, 4⟩
    ⟨⟨⟨[7]⟩, ⟨[]⟩, 2, 0⟩, ⟨[], [], 0, 0, 2, 0, 0⟩,
     ⟨4, 0, false, false, [], [], [], 0, []⟩⟩ 9 false 0 (by decide)

/-- C8 (code bug evidence): `kmem_cache_reap` destroys the slab on the
empty list — its one-page region is handed back to the source arena — but
never unlinks it (`kmem_slab_destroy` and the reap loop contain no
`TAILQ_REMOVE`/`TAILQ_INIT`), so the destroyed slab is still linked on
`empty_slab_list` when `kmem_cache_reap` returns.  Evaluated at a
well-formed cache with a single empty slab. -/
theorem C8_reap_leaves_destroyed_slab_linked :
    CacheInv ⟨16, 4⟩
      ⟨4, 0, false, false, [], [], [⟨0, 3, 0, [0, 4, 8]⟩], 0, []⟩ ∧
    (kmemCacheReap ⟨16, 4⟩
      ⟨4, 0, false, false, [], [], [⟨0, 3, 0, [0, 4, 8]⟩], 0, []⟩).2 =
        [Ev.arenaFree 0 16] ∧
    (kmemCacheReap ⟨16, 4⟩
      ⟨4, 0, false, false, [], [], [⟨0, 3, 0, [0, 4, 8]⟩], 0, []⟩).1.empty_slab_list =
        [⟨0, 3, 0, [0, 4, 8]⟩] := by
  decide

theorem minFold_le_init (l : List Nat) : ∀ a : Nat, l.foldl min a ≤ a := by
  induction l with
  | nil => intro a; simp
  | cons y ys ih =>
    intro a
    simpa using le_trans (ih (min a y)) (min_le_left a y)

theorem minFold_le_of_mem (l : List Nat) :
    ∀ a x : Nat, x ∈ l → l.foldl min a ≤ x := by
  induction l with
  | nil => intro a x hx; cases hx
  | cons y ys ih =>
    intro a x hx
    rcases List.mem_cons.mp hx with h | h
    · subst h
      simpa using le_trans (minFold_le_init ys (min a x)) (min_le_right a x)
    · simpa using ih (min a y) x h

theorem le_minFold (l : List Nat) :
    ∀ a b : Nat, b ≤ a → (∀ x ∈ l, b ≤ x) → b ≤ l.foldl min a := by
  induction l with
  | nil => intro a b hb _; simpa using hb
  | cons y ys ih =>
    intro a b hb h
    simpa using ih (min a y) b (le_min hb (h y (List.mem_cons_self y ys)))
      (fun x hx => h x (List.mem_cons_of_mem y hx))

theorem slabSlots_length (objsz : Nat) (s : Slab) :
    (slabSlots objsz s).length = s.num_total_obj := by
  simp [slabSlots]

theorem slabSlots_nodup (objsz : Nat) (s : Slab) (h : 0 < objsz) :
    (slabSlots objsz s).Nodup := by
  refine List.Nodup.map ?_ (List.nodup_range _)
  intro i j hij
  have h2 : i * objsz = j * objsz := Nat.add_left_cancel hij
  exact Nat.eq_of_mul_eq_mul_right h h2

theorem base_mem_slabSlots (objsz : Nat) (s : Slab) (h : 0 < s.num_total_obj) :
    s.base ∈ slabSlots objsz s := by
  simp only [slabSlots, List.mem_map, List.mem_range]
  exact ⟨0, h, by simp⟩

theorem base_le_of_mem_slabSlots (objsz : Nat) (s : Slab) (a : Nat)
    (h : a ∈ slabSlots objsz s) : s.base ≤ a := by
  simp only [slabSlots, List.mem_map, List.mem_range] at h
  obtain ⟨i, -, rfl⟩ := h
  exact Nat.le_add_right _ _

theorem mem_of_subset_nodup_length (l₁ l₂ : List Nat) (h₁ : l₁.Nodup)
    (hsub : ∀ a ∈ l₁, a ∈ l₂) (h₂ : l₂.Nodup) (hlen : l₂.length ≤ l₁.length) :
    ∀ a ∈ l₂, a ∈ l₁ := by
  intro a ha
  have hs : l₁.toFinset ⊆ l₂.toFinset := by
    intro x hx
    rw [List.mem_toFinset] at hx ⊢
    exact hsub x hx
  have hc : l₂.toFinset.card ≤ l₁.toFinset.card := by
    rw [List.toFinset_card_of_nodup h₁, List.toFinset_card_of_nodup h₂]
    exact hlen
  have heq := Finset.eq_of_subset_of_card_le hs hc
  rw [← List.mem_toFinset, ← heq, List.mem_toFinset] at ha
  exact ha

/-- C10: for a bufctl-mode slab with no busy objects, the `MIN` fold of
`kmem_slab_destroy` over the freelist's `buf_addr`s recovers the start
address of the region `kmem_cache_grow` imported for the slab (its
`base`), and the destroy frees every bufctl on the freelist, then exactly
`import_amt` bytes at that address to the source arena, then the slab
record. -/
theorem C10_empty_bufctl_slab_destroy
    (P : Params) (cp : KmemCache) (s : Slab)
    (hub : cp.use_bufctl = true)
    (hobj : 0 < cp.obj_size)
    (hwf : SlabWF P true cp.obj_size s)
    (hbusy : s.num_busy_obj = 0)
    (hfit : s.base + s.num_total_obj * cp.obj_size ≤ sizeMax) :
    s.freelist.foldl min sizeMax = s.base ∧
    slabDestroyEvs P cp s =
      s.freelist.map Ev.bufctlFreed
        ++ [Ev.arenaFree s.base cp.import_amt, Ev.slabRecFreed s.base] := by
  unfold SlabWF at hwf
  obtain ⟨h2, hble, hlen, hnd, hsubs, -⟩ := hwf
  have hlen' : (slabSlots cp.obj_size s).length ≤ s.freelist.length := by
    rw [slabSlots_length]
    omega
  have hmem : ∀ a ∈ slabSlots cp.obj_size s, a ∈ s.freelist :=
    mem_of_subset_nodup_length _ _ hnd hsubs (slabSlots_nodup _ _ hobj) hlen'
  have hbase_mem : s.base ∈ s.freelist :=
    hmem _ (base_mem_slabSlots _ _ (by omega))
  have hge : ∀ x ∈ s.freelist, s.base ≤ x := fun x hx =>
    base_le_of_mem_slabSlots _ _ _ (hsubs x hx)
  have hbs : s.base ≤ sizeMax := le_trans (Nat.le_add_right _ _) hfit
  have hminv : s.freelist.foldl min sizeMax = s.base :=
    le_antisymm (minFold_le_of_mem _ _ _ hbase_mem) (le_minFold _ _ _ hbs hge)
  refine ⟨hminv, ?_⟩
  simp [slabDestroyEvs, hub, hminv]

/-- Witness for C10 at a concrete two-slot bufctl slab. -/
theorem C10_empty_bufctl_slab_destroy_witness :
    (⟨100, 2, 0, [104, 100]⟩ : Slab).freelist.foldl min sizeMax =
      (⟨100, 2, 0, [104, 100]⟩ : Slab).base ∧
    slabDestroyEvs ⟨16, 4⟩ ⟨4, 8, true, false, [], [], [], 0, []⟩
        ⟨100, 2, 0, [104, 100]⟩ =
      (⟨100, 2, 0, [104, 100]⟩ : Slab).freelist.map Ev.bufctlFreed
        ++ [Ev.arenaFree (⟨100, 2, 0, [104, 100]⟩ : Slab).base 8,
            Ev.slabRecFreed (⟨100, 2, 0, [104, 100]⟩ : Slab).base] :=
  C10_empty_bufctl_slab_destroy ⟨16, 4⟩ ⟨4, 8, true, false, [], [], [], 0, []⟩
    ⟨100, 2, 0, [104, 100]⟩ rfl (by decide) (by decide) rfl (by decide)

theorem disjoint_bases {lA lB : List Slab}
    (h : ((lA ++ lB).map Slab.base).Nodup) :
    ∀ u ∈ lA, ∀ v ∈ lB, u.base ≠ v.base := by
  rw [List.map_append, List.nodup_append] at h
  intro u hu v hv heq
  exact h.2.2 (List.mem_map_of_mem _ hu) (heq ▸ List.mem_map_of_mem _ hv)

theorem setSlab_eq_of_forall_ne {l : List Slab} {b : Nat} {s' : Slab}
    (h : ∀ u ∈ l, u.base ≠ b) : setSlab l b s' = l := by
  unfold setSlab
  rw [List.map_congr_left (fun u hu => if_neg (h u hu))]
  simp

theorem setSlab_head_tail {l : List Slab} {s s' : Slab} {b : Nat}
    (hs : s.base = b) (h : ∀ u ∈ l, u.base ≠ b) :
    setSlab (s :: l) b s' = s' :: l := by
  unfold setSlab
  simp only [List.map_cons, if_pos hs]
  rw [show List.map (fun t => if t.base = b then s' else t) l = setSlab l b s' from rfl,
    setSlab_eq_of_forall_ne h]

theorem eraseBase_cons_self {l : List Slab} {s : Slab} {b : Nat} (hs : s.base = b) :
    eraseBase (s :: l) b = l := by
  simp [eraseBase, List.eraseP_cons, hs]

theorem eraseBase_eq_of_forall_ne {l : List Slab} {b : Nat}
    (h : ∀ u ∈ l, u.base ≠ b) : eraseBase l b = l :=
  List.eraseP_of_forall_not (by intro u hu; simpa using h u hu)

theorem find?_base_eq_none {l : List Slab} {b : Nat} (h : ∀ u ∈ l, u.base ≠ b) :
    l.find? (fun s => s.base = b) = none :=
  List.find?_eq_none.mpr (by intro u hu; simpa using h u hu)

theorem yankBufctl_cons_self {h : List Bufctl} {bc : Bufctl} {buf : Nat}
    (hb : bc.buf_addr = buf) : yankBufctl (bc :: h) buf = some (bc, h) := by
  simp [yankBufctl, hb]

theorem rounddown_slot (P : Params) (objsz : Nat) (s : Slab) (a : Nat)
    (hal : s.base % P.pgsize = 0)
    (hfit : s.num_total_obj * objsz + P.slabRecSz ≤ P.pgsize)
    (hrec : 0 < P.slabRecSz) (ha : a ∈ slabSlots objsz s) :
    a / P.pgsize * P.pgsize = s.base := by
  have hpg : 0 < P.pgsize := lt_of_lt_of_le hrec (le_trans (Nat.le_add_left _ _) hfit)
  simp only [slabSlots, List.mem_map, List.mem_range] at ha
  obtain ⟨i, hi, rfl⟩ := ha
  obtain ⟨k, hk⟩ := Nat.dvd_of_mod_eq_zero hal
  have hlt : i * objsz < P.pgsize := by
    have h1 : (i + 1) * objsz ≤ s.num_total_obj * objsz :=
      Nat.mul_le_mul_right _ hi
    have h2 : i * objsz ≤ (i + 1) * objsz := Nat.mul_le_mul_right _ (Nat.le_succ i)
    omega
  rw [hk, Nat.mul_add_div hpg, Nat.div_eq_of_lt hlt]
  ring

theorem base_ne_of_nodup_cons {l : List Slab} {s : Slab}
    (h : ((s :: l).map Slab.base).Nodup) : ∀ u ∈ l, u.base ≠ s.base := by
  simp only [List.map_cons, List.nodup_cons] at h
  intro u hu heq
  exact h.1 (heq ▸ List.mem_map_of_mem _ hu)

theorem nodup_bases_right {l₁ l₂ : List Slab}
    (h : ((l₁ ++ l₂).map Slab.base).Nodup) : (l₂.map Slab.base).Nodup := by
  rw [List.map_append, List.nodup_append] at h
  exact h.2.1

theorem find?_append_none {α : Type} {l₁ l₂ : List α} {p : α → Bool}
    (h : l₁.find? p = none) : (l₁ ++ l₂).find? p = l₂.find? p := by
  induction l₁ with
  | nil => rfl
  | cons x xs ih =>
    rw [List.find?_cons] at h
    rw [List.cons_append, List.find?_cons]
    cases hx : p x with
    | true => rw [hx] at h; cases h
    | false =>
      rw [hx] at h
      simpa using ih h

theorem ensurePartial_of_partialHead (P : Params) (cp : KmemCache) (src : Option Nat)
    {s : Slab} {ps : List Slab} (hp : cp.partial_slab_list = s :: ps) :
    ensurePartial P cp src = some cp := by
  unfold ensurePartial
  rw [hp]

theorem ensurePartial_of_empty (P : Params) (cp : KmemCache) (src : Option Nat)
    {s : Slab} {es : List Slab}
    (hp : cp.partial_slab_list = []) (he : cp.empty_slab_list = s :: es) :
    ensurePartial P cp src =
      some { cp with empty_slab_list := es, partial_slab_list := [s] } := by
  unfold ensurePartial
  rw [hp]
  simp [he, hp]

theorem ensurePartial_grow (P : Params) (cp cpg : KmemCache) (src : Option Nat)
    (hp : cp.partial_slab_list = []) (he : cp.empty_slab_list = [])
    (hg : growFn P cp src = some cpg) :
    ensurePartial P cp src = ensurePartial P cpg src := by
  obtain ⟨ns, rfl⟩ : ∃ ns, cpg = { cp with empty_slab_list := ns :: cp.empty_slab_list } := by
    cases src with
    | none => simp [growFn] at hg
    | some p =>
      simp only [growFn, Option.some.injEq] at hg
      exact ⟨_, hg.symm⟩
  unfold ensurePartial
  rw [hp]
  simp [he, hg, hp]

theorem allocPop_eq (cp1 : KmemCache) {s : Slab} {ps : List Slab}
    {r : Nat} {rest : List Nat}
    (hp : cp1.partial_slab_list = s :: ps) (hfl : s.freelist = r :: rest) :
    allocPop cp1 =
      some (r,
        let s' : Slab := { s with freelist := rest,
                                  num_busy_obj := s.num_busy_obj + 1 }
        let cp2 := if cp1.use_bufctl
          then { cp1 with alloc_hash := ⟨r, s.base⟩ :: cp1.alloc_hash } else cp1
        let cp3 := if s.num_busy_obj + 1 = s.num_total_obj
          then { cp2 with partial_slab_list := ps,
                          full_slab_list := s' :: cp2.full_slab_list }
          else { cp2 with partial_slab_list := s' :: ps }
        { cp3 with nr_cur_alloc := cp3.nr_cur_alloc + 1 }) := by
  unfold allocPop
  simp only [hp, hfl]

theorem freeToSlab_restore_partialHead
    (P : Params) (cp : KmemCache)
    {s : Slab} {ps : List Slab} {r : Nat} {rest : List Nat}
    (hp : cp.partial_slab_list = s :: ps)
    (hfl : s.freelist = r :: rest)
    (hbusy : 0 < s.num_busy_obj)
    (hnotfull : ∀ u ∈ cp.full_slab_list, u.base ≠ s.base)
    (hnotps : ∀ u ∈ ps, u.base ≠ s.base)
    (hnotemp : ∀ u ∈ cp.empty_slab_list, u.base ≠ s.base)
    (hloc : cp.use_bufctl = false → r / P.pgsize * P.pgsize = s.base) :
    ∀ rr cp1, allocPop cp = some (rr, cp1) → freeToSlab P cp1 rr = some cp := by
  intro rr cp1 h
  obtain ⟨b, t, bu, fl⟩ := s
  replace hfl : fl = r :: rest := hfl
  subst hfl
  replace hnotfull : ∀ u ∈ cp.full_slab_list, u.base ≠ b := hnotfull
  replace hnotps : ∀ u ∈ ps, u.base ≠ b := hnotps
  replace hnotemp : ∀ u ∈ cp.empty_slab_list, u.base ≠ b := hnotemp
  replace hbusy : 0 < bu := hbusy
  replace hloc : cp.use_bufctl = false → r / P.pgsize * P.pgsize = b := hloc
  rw [allocPop_eq cp hp rfl] at h
  simp only [Option.some.injEq, Prod.mk.injEq] at h
  obtain ⟨hr, hcp⟩ := h
  subst hr
  subst hcp
  by_cases hfc : bu + 1 = t <;> cases hub : cp.use_bufctl
  · -- slab filled up and moved to the full list; embedded layout
    have hb : r / P.pgsize * P.pgsize = b := hloc hub
    simp only [hub, Bool.false_eq_true, if_false, if_pos hfc]
    unfold freeToSlab
    simp only [hub, Bool.false_eq_true, if_false, hb]
    have hfind : findSlab
        { cp with use_bufctl := false,
                  full_slab_list := (⟨b, t, bu + 1, rest⟩ : Slab) :: cp.full_slab_list,
                  partial_slab_list := ps,
                  nr_cur_alloc := cp.nr_cur_alloc + 1 } b = some ⟨b, t, bu + 1, rest⟩ := by
      simp [findSlab, allSlabs]
    simp only [hfind]
    simp only [setSlab_head_tail (show (⟨b, t, bu + 1, rest⟩ : Slab).base = b from rfl) hnotfull,
      eraseBase_cons_self (show (⟨b, t, bu + 1 - 1, r :: rest⟩ : Slab).base = b from rfl),
      setSlab_eq_of_forall_ne hnotps, setSlab_eq_of_forall_ne hnotemp]
    rw [if_pos (show bu + 1 - 1 + 1 = t from hfc)]
    rw [show (cp.nr_cur_alloc + 1 - 1 : Int) = cp.nr_cur_alloc by omega]
    simp only [Nat.add_sub_cancel]
    rw [← hp, ← hub]
  · -- slab filled up and moved to the full list; bufctl layout
    simp only [hub, if_true, if_pos hfc]
    unfold freeToSlab
    simp only [hub, if_true, yankBufctl_cons_self rfl]
    have hfind : findSlab
        { cp with use_bufctl := true,
                  full_slab_list := (⟨b, t, bu + 1, rest⟩ : Slab) :: cp.full_slab_list,
                  partial_slab_list := ps,
                  nr_cur_alloc := cp.nr_cur_alloc + 1 } b = some ⟨b, t, bu + 1, rest⟩ := by
      simp [findSlab, allSlabs]
    simp only [hfind]
    simp only [setSlab_head_tail (show (⟨b, t, bu + 1, rest⟩ : Slab).base = b from rfl) hnotfull,
      eraseBase_cons_self (show (⟨b, t, bu + 1 - 1, r :: rest⟩ : Slab).base = b from rfl),
      setSlab_eq_of_forall_ne hnotps, setSlab_eq_of_forall_ne hnotemp]
    rw [if_pos (show bu + 1 - 1 + 1 = t from hfc)]
    rw [show (cp.nr_cur_alloc + 1 - 1 : Int) = cp.nr_cur_alloc by omega]
    simp only [Nat.add_sub_cancel]
    rw [← hp, ← hub]
  · -- slab stays partial; embedded layout
    have hb : r / P.pgsize * P.pgsize = b := hloc hub
    simp only [hub, Bool.false_eq_true, if_false, if_neg hfc]
    unfold freeToSlab
    simp only [hub, Bool.false_eq_true, if_false, hb]
    have hfind : findSlab
        { cp with use_bufctl := false,
                  partial_slab_list := (⟨b, t, bu + 1, rest⟩ : Slab) :: ps,
                  nr_cur_alloc := cp.nr_cur_alloc + 1 } b = some ⟨b, t, bu + 1, rest⟩ := by
      unfold findSlab allSlabs
      simp only [List.append_assoc]
      rw [find?_append_none (find?_base_eq_none hnotfull)]
      simp
    simp only [hfind]
    simp only [setSlab_head_tail (show (⟨b, t, bu + 1, rest⟩ : Slab).base = b from rfl) hnotps,
      setSlab_eq_of_forall_ne hnotfull, setSlab_eq_of_forall_ne hnotemp]
    rw [if_neg (show ¬ (bu + 1 - 1 + 1 = t) from hfc), if_neg (show ¬ (bu + 1 - 1 = 0) by omega)]
    rw [show (cp.nr_cur_alloc + 1 - 1 : Int) = cp.nr_cur_alloc by omega]
    simp only [Nat.add_sub_cancel]
    rw [← hp, ← hub]
  · -- slab stays partial; bufctl layout
    simp only [hub, if_true, if_neg hfc]
    unfold freeToSlab
    simp only [hub, if_true, yankBufctl_cons_self rfl]
    have hfind : findSlab
        { cp with use_bufctl := true,
                  partial_slab_list := (⟨b, t, bu + 1, rest⟩ : Slab) :: ps,
                  nr_cur_alloc := cp.nr_cur_alloc + 1 } b = some ⟨b, t, bu + 1, rest⟩ := by
      unfold findSlab allSlabs
      simp only [List.append_assoc]
      rw [find?_append_none (find?_base_eq_none hnotfull)]
      simp
    simp only [hfind]
    simp only [setSlab_head_tail (show (⟨b, t, bu + 1, rest⟩ : Slab).base = b from rfl) hnotps,
      setSlab_eq_of_forall_ne hnotfull, setSlab_eq_of_forall_ne hnotemp]
    rw [if_neg (show ¬ (bu + 1 - 1 + 1 = t) from hfc), if_neg (show ¬ (bu + 1 - 1 = 0) by omega)]
    rw [show (cp.nr_cur_alloc + 1 - 1 : Int) = cp.nr_cur_alloc by omega]
    simp only [Nat.add_sub_cancel]
    rw [← hp, ← hub]

theorem freeToSlab_restore_empty
    (P : Params) (cp : KmemCache)
    {s : Slab} {es : List Slab} {r : Nat} {rest : List Nat}
    (hp : cp.partial_slab_list = [])
    (he : cp.empty_slab_list = s :: es)
    (hfl : s.freelist = r :: rest)
    (htot : 2 ≤ s.num_total_obj)
    (hbusy : s.num_busy_obj = 0)
    (hnotfull : ∀ u ∈ cp.full_slab_list, u.base ≠ s.base)
    (hnotes : ∀ u ∈ es, u.base ≠ s.base)
    (hloc : cp.use_bufctl = false → r / P.pgsize * P.pgsize = s.base) :
    ∀ rr cp1,
      allocPop { cp with empty_slab_list := es, partial_slab_list := [s] } = some (rr, cp1) →
      freeToSlab P cp1 rr = some cp := by
  intro rr cp1 h
  obtain ⟨b, t, bu, fl⟩ := s
  replace hfl : fl = r :: rest := hfl
  subst hfl
  replace hbusy : bu = 0 := hbusy
  subst hbusy
  replace htot : 2 ≤ t := htot
  replace hnotfull : ∀ u ∈ cp.full_slab_list, u.base ≠ b := hnotfull
  replace hnotes : ∀ u ∈ es, u.base ≠ b := hnotes
  replace hloc : cp.use_bufctl = false → r / P.pgsize * P.pgsize = b := hloc
  rw [allocPop_eq _ rfl rfl] at h
  simp only [Option.some.injEq, Prod.mk.injEq] at h
  obtain ⟨hr, hcp⟩ := h
  subst hr
  subst hcp
  cases hub : cp.use_bufctl
  · have hb : r / P.pgsize * P.pgsize = b := hloc hub
    simp only [hub, Bool.false_eq_true, if_false, if_neg (show ¬ (0 + 1 = t) by omega)]
    unfold freeToSlab
    simp only [hub, Bool.false_eq_true, if_false, hb]
    have hfind : findSlab
        { cp with use_bufctl := false,
                  empty_slab_list := es,
                  partial_slab_list := [(⟨b, t, 0 + 1, rest⟩ : Slab)],
                  nr_cur_alloc := cp.nr_cur_alloc + 1 } b = some ⟨b, t, 0 + 1, rest⟩ := by
      unfold findSlab allSlabs
      simp only [List.append_assoc]
      rw [find?_append_none (find?_base_eq_none hnotfull)]
      simp
    simp only [hfind]
    simp only [setSlab_head_tail (show (⟨b, t, 0 + 1, rest⟩ : Slab).base = b from rfl)
        (fun u hu => absurd hu (List.not_mem_nil u)),
      setSlab_eq_of_forall_ne hnotfull, setSlab_eq_of_forall_ne hnotes]
    rw [if_neg (show ¬ (0 + 1 - 1 + 1 = t) by omega), if_pos trivial]
    rw [eraseBase_cons_self (show (⟨b, t, 0 + 1 - 1, r :: rest⟩ : Slab).base = b from rfl)]
    rw [show (cp.nr_cur_alloc + 1 - 1 : Int) = cp.nr_cur_alloc by omega]
    simp only [Nat.add_sub_cancel]
    rw [← hp, ← he, ← hub]
  · simp only [hub, if_true, if_neg (show ¬ (0 + 1 = t) by omega)]
    unfold freeToSlab
    simp only [hub, if_true, yankBufctl_cons_self rfl]
    have hfind : findSlab
        { cp with use_bufctl := true,
                  empty_slab_list := es,
                  partial_slab_list := [(⟨b, t, 0 + 1, rest⟩ : Slab)],
                  nr_cur_alloc := cp.nr_cur_alloc + 1 } b = some ⟨b, t, 0 + 1, rest⟩ := by
      unfold findSlab allSlabs
      simp only [List.append_assoc]
      rw [find?_append_none (find?_base_eq_none hnotfull)]
      simp
    simp only [hfind]
    simp only [setSlab_head_tail (show (⟨b, t, 0 + 1, rest⟩ : Slab).base = b from rfl)
        (fun u hu => absurd hu (List.not_mem_nil u)),
      setSlab_eq_of_forall_ne hnotfull, setSlab_eq_of_forall_ne hnotes]
    rw [if_neg (show ¬ (0 + 1 - 1 + 1 = t) by omega), if_pos trivial]
    rw [eraseBase_cons_self (show (⟨b, t, 0 + 1 - 1, r :: rest⟩ : Slab).base = b from rfl)]
    rw [show (cp.nr_cur_alloc + 1 - 1 : Int) = cp.nr_cur_alloc by omega]
    simp only [Nat.add_sub_cancel]
    rw [← hp, ← he, ← hub]

theorem growFn_newSlab (P : Params) (cp : KmemCache) (p : Nat)
    (hobj : 0 < cp.obj_size) :
    ∃ ns : Slab,
      growFn P cp (some p) =
        some { cp with empty_slab_list := ns :: cp.empty_slab_list } ∧
      ns.base = p ∧ ns.num_busy_obj = 0 ∧ ns.num_total_obj = growTotal P cp ∧
      ns.freelist.length = growTotal P cp ∧
      (∀ a ∈ ns.freelist, a ∈ slabSlots cp.obj_size ns) ∧
      ns.freelist.Nodup := by
  cases hub : cp.use_bufctl
  · refine ⟨⟨p, (P.pgsize - P.slabRecSz) / cp.obj_size, 0,
      (List.range ((P.pgsize - P.slabRecSz) / cp.obj_size)).map
        (fun i => p + i * cp.obj_size)⟩, ?_, rfl, rfl, ?_, ?_, ?_, ?_⟩
    · simp [growFn, hub]
    · simp [growTotal, hub]
    · simp [growTotal, hub]
    · intro a ha
      simpa [slabSlots] using ha
    · exact slabSlots_nodup cp.obj_size
        ⟨p, (P.pgsize - P.slabRecSz) / cp.obj_size, 0, []⟩ hobj
  · refine ⟨⟨p, cp.import_amt / cp.obj_size, 0,
      ((List.range (cp.import_amt / cp.obj_size)).map
        (fun i => p + i * cp.obj_size)).reverse⟩, ?_, rfl, rfl, ?_, ?_, ?_, ?_⟩
    · simp [growFn, hub]
    · simp [growTotal, hub]
    · simp [growTotal, hub]
    · intro a ha
      rw [List.mem_reverse] at ha
      simpa [slabSlots] using ha
    · rw [List.nodup_reverse]
      exact slabSlots_nodup cp.obj_size ⟨p, cp.import_amt / cp.obj_size, 0, []⟩ hobj

theorem growFn_shape (P : Params) (cp cpg : KmemCache) (src : Option Nat)
    (hg : growFn P cp src = some cpg) :
    ∃ ns : Slab, ns.num_busy_obj = 0 ∧
      cpg = { cp with empty_slab_list := ns :: cp.empty_slab_list } ∧
      ∃ p, src = some p ∧ ns.base = p := by
  cases src with
  | none => simp [growFn] at hg
  | some p =>
    simp only [growFn, Option.some.injEq] at hg
    refine ⟨_, ?_, hg.symm, p, rfl, ?_⟩
    · cases hub : cp.use_bufctl <;> simp [hub]
    · cases hub : cp.use_bufctl <;> simp [hub]

/-- C6: when the constructor fails on the slot handed out by the slab
back-end, `__kmem_alloc_from_slab` pushes the slot back via
`__kmem_free_to_slab` and returns NULL.  The resulting cache is exactly the
cache before the allocation (or, if the allocation had to grow first, the
grown cache with its fresh all-free slab), so the live-allocation counter
and every slab's busy count are restored to their pre-allocation values. -/
theorem C6_ctor_failure_returns_slot_to_slab
    (P : Params) (cp : KmemCache) (src : Option Nat) (f : Nat → Bool)
    (r : Nat) (cp1 : KmemCache)
    (hinv : CacheInv P cp) (hgrow : GrowOK P cp src)
    (hcore : allocCore P cp src = some (r, cp1))
    (hfail : f r = true) :
    ∃ cp', allocFromSlab P cp src (some f) = some (none, cp') ∧
      (cp' = cp ∨ growFn P cp src = some cp') ∧
      cp'.nr_cur_alloc = cp.nr_cur_alloc ∧
      (∀ u ∈ allSlabs cp',
        (∃ v ∈ allSlabs cp, v.base = u.base ∧ v.num_busy_obj = u.num_busy_obj) ∨
        (u.num_busy_obj = 0 ∧ u.base ∉ (allSlabs cp).map Slab.base)) := by
  unfold CacheInv at hinv
  obtain ⟨hobj, hrec, hrecpg, hwf, hemp, hpart, hfull,
    hbases, hdisj, hhemb, hhmem, hhnd, hhcomp⟩ := hinv
  have hfree : ∃ cp0, freeToSlab P cp1 r = some cp0 ∧
      (cp0 = cp ∨ growFn P cp src = some cp0) := by
    rcases hpl : cp.partial_slab_list with _ | ⟨s, ps⟩
    · rcases hel : cp.empty_slab_list with _ | ⟨s, es⟩
      · -- both lists exhausted: the allocation grew first
        obtain ⟨p, hsrc⟩ : ∃ p, src = some p := by
          cases hs : src with
          | none =>
            exfalso
            unfold allocCore ensurePartial at hcore
            rw [hpl, hel, hs] at hcore
            simp [growFn] at hcore
          | some p => exact ⟨p, rfl⟩
        subst hsrc
        replace hgrow : (cp.use_bufctl = false → p % P.pgsize = 0) ∧
            p ∉ (allSlabs cp).map Slab.base ∧
            (∀ s ∈ allSlabs cp, ∀ a ∈ slabSlots cp.obj_size s,
              a ∉ growSlots P cp p) ∧
            2 ≤ growTotal P cp := hgrow
        obtain ⟨halign, hfresh, -, htotg⟩ := hgrow
        obtain ⟨ns, hg, hnsb, hnsbusy, hnst, hnslen, hnssub, hnsnd⟩ :=
          growFn_newSlab P cp p hobj
        rw [hel] at hg
        obtain ⟨r0, rest0, hfl⟩ : ∃ r0 rest0, ns.freelist = r0 :: rest0 := by
          rcases hf : ns.freelist with _ | ⟨a, l⟩
          · rw [hf] at hnslen
            simp at hnslen
            omega
          · exact ⟨a, l, rfl⟩
        unfold allocCore at hcore
        rw [ensurePartial_grow P cp _ (some p) hpl hel hg,
          ensurePartial_of_empty P _ (some p)
            (show KmemCache.partial_slab_list
              { cp with empty_slab_list := [ns] } = [] from hpl) rfl] at hcore
        replace hcore : allocPop
            { cp with empty_slab_list := [], partial_slab_list := [ns] } =
            some (r, cp1) := hcore
        have hnotfull : ∀ u ∈ cp.full_slab_list, u.base ≠ ns.base := by
          intro u hu heq
          have hm : u.base ∈ (allSlabs cp).map Slab.base :=
            List.mem_map_of_mem Slab.base (by simp [allSlabs, hu])
          rw [heq, hnsb] at hm
          exact hfresh hm
        have hloc : cp.use_bufctl = false → r0 / P.pgsize * P.pgsize = ns.base := by
          intro hub
          refine rounddown_slot P cp.obj_size ns r0 ?_ ?_ hrec
            (hnssub r0 (by rw [hfl]; exact List.mem_cons_self _ _))
          · rw [hnsb]
            exact halign hub
          · rw [hnst]
            unfold growTotal
            rw [hub]
            simp only [Bool.false_eq_true, if_false]
            have := Nat.div_mul_le_self (P.pgsize - P.slabRecSz) cp.obj_size
            omega
        refine ⟨{ cp with empty_slab_list := [ns] }, ?_, Or.inr hg⟩
        exact freeToSlab_restore_empty P { cp with empty_slab_list := [ns] }
          hpl rfl hfl (hnst ▸ htotg) hnsbusy hnotfull
          (fun u hu => absurd hu (List.not_mem_nil u)) hloc r cp1 hcore
      · -- a slab on the empty list was moved to partial
        have hsmem : s ∈ allSlabs cp := by simp [allSlabs, hel]
        have hwfs := hwf s hsmem
        unfold SlabWF at hwfs
        obtain ⟨h2t, hble, hlen, hnd, hsubs, hembs⟩ := hwfs
        have hbusy0 : s.num_busy_obj = 0 :=
          hemp s (by rw [hel]; exact List.mem_cons_self _ _)
        obtain ⟨r0, rest0, hfl⟩ : ∃ r0 rest0, s.freelist = r0 :: rest0 := by
          rcases hf : s.freelist with _ | ⟨a, l⟩
          · rw [hf] at hlen
            simp at hlen
            omega
          · exact ⟨a, l, rfl⟩
        have hbases' := hbases
        rw [allSlabs, hpl, hel] at hbases'
        simp only [List.append_nil] at hbases'
        have hnotfull : ∀ u ∈ cp.full_slab_list, u.base ≠ s.base := by
          intro u hu
          exact disjoint_bases hbases' u hu s (List.mem_cons_self _ _)
        have hnotes : ∀ u ∈ es, u.base ≠ s.base :=
          base_ne_of_nodup_cons (nodup_bases_right hbases')
        have hloc : cp.use_bufctl = false → r0 / P.pgsize * P.pgsize = s.base := by
          intro hub
          obtain ⟨hal, hfit⟩ := hembs hub
          exact rounddown_slot P cp.obj_size s r0 hal hfit hrec
            (hsubs r0 (by rw [hfl]; exact List.mem_cons_self _ _))
        unfold allocCore at hcore
        rw [ensurePartial_of_empty P cp src hpl hel] at hcore
        replace hcore : allocPop
            { cp with empty_slab_list := es, partial_slab_list := [s] } =
            some (r, cp1) := hcore
        exact ⟨cp, freeToSlab_restore_empty P cp hpl hel hfl h2t hbusy0
          hnotfull hnotes hloc r cp1 hcore, Or.inl rfl⟩
    · -- a partial slab existed
      have hsmem : s ∈ allSlabs cp := by simp [allSlabs, hpl]
      have hwfs := hwf s hsmem
      unfold SlabWF at hwfs
      obtain ⟨h2t, hble, hlen, hnd, hsubs, hembs⟩ := hwfs
      obtain ⟨hbpos, hblt⟩ :=
        hpart s (by rw [hpl]; exact List.mem_cons_self _ _)
      obtain ⟨r0, rest0, hfl⟩ : ∃ r0 rest0, s.freelist = r0 :: rest0 := by
        rcases hf : s.freelist with _ | ⟨a, l⟩
        · rw [hf] at hlen
          simp at hlen
          omega
        · exact ⟨a, l, rfl⟩
      have hbases' := hbases
      rw [allSlabs, hpl] at hbases'
      rw [List.append_assoc] at hbases'
      have hnotfull : ∀ u ∈ cp.full_slab_list, u.base ≠ s.base := by
        intro u hu
        exact disjoint_bases hbases' u hu s (by simp)
      have hrest := nodup_bases_right hbases'
      rw [List.cons_append] at hrest
      have hnotpe : ∀ u ∈ ps ++ cp.empty_slab_list, u.base ≠ s.base :=
        base_ne_of_nodup_cons hrest
      have hnotps : ∀ u ∈ ps, u.base ≠ s.base := fun u hu =>
        hnotpe u (List.mem_append_left _ hu)
      have hnotemp : ∀ u ∈ cp.empty_slab_list, u.base ≠ s.base := fun u hu =>
        hnotpe u (List.mem_append_right _ hu)
      have hloc : cp.use_bufctl = false → r0 / P.pgsize * P.pgsize = s.base := by
        intro hub
        obtain ⟨hal, hfit⟩ := hembs hub
        exact rounddown_slot P cp.obj_size s r0 hal hfit hrec
          (hsubs r0 (by rw [hfl]; exact List.mem_cons_self _ _))
      unfold allocCore at hcore
      rw [ensurePartial_of_partialHead P cp src hpl] at hcore
      replace hcore : allocPop cp = some (r, cp1) := hcore
      exact ⟨cp, freeToSlab_restore_partialHead P cp hpl hfl hbpos hnotfull
        hnotps hnotemp hloc r cp1 hcore, Or.inl rfl⟩
  obtain ⟨cp0, hf0, hd0⟩ := hfree
  refine ⟨cp0, ?_, hd0, ?_, ?_⟩
  · unfold allocFromSlab
    rw [hcore]
    simp only [hfail, if_true, hf0]
  · rcases hd0 with rfl | hg
    · rfl
    · obtain ⟨ns, hb0, rfl, p, hsrc, hnsb⟩ := growFn_shape P cp cp0 src hg
      rfl
  · rcases hd0 with rfl | hg
    · intro u hu
      exact Or.inl ⟨u, hu, rfl, rfl⟩
    · obtain ⟨ns, hb0, rfl, p, hsrc, hnsb⟩ := growFn_shape P cp cp0 src hg
      subst hsrc
      replace hgrow : (cp.use_bufctl = false → p % P.pgsize = 0) ∧
          p ∉ (allSlabs cp).map Slab.base ∧
          (∀ s ∈ allSlabs cp, ∀ a ∈ slabSlots cp.obj_size s,
            a ∉ growSlots P cp p) ∧
          2 ≤ growTotal P cp := hgrow
      obtain ⟨-, hfresh, -, -⟩ := hgrow
      intro u hu
      replace hu : u ∈ cp.full_slab_list ++ cp.partial_slab_list ++
          (ns :: cp.empty_slab_list) := hu
      simp only [List.mem_append, List.mem_cons] at hu
      rcases hu with (hu | hu) | (rfl | hu)
      · exact Or.inl ⟨u, by simp [allSlabs, List.mem_append, hu], rfl, rfl⟩
      · exact Or.inl ⟨u, by simp [allSlabs, List.mem_append, hu], rfl, rfl⟩
      · exact Or.inr ⟨hb0, by rw [hnsb]; exact hfresh⟩
      · exact Or.inl ⟨u, by simp [allSlabs, List.mem_append, hu], rfl, rfl⟩

/-- Witness for C6: a fresh embedded cache, a grow from region 0, and a
constructor that always fails. -/
theorem C6_ctor_failure_returns_slot_to_slab_witness :
    ∃ cp', allocFromSlab ⟨16, 4⟩ ⟨4, 0, false, false, [], [], [], 0, []⟩
        (some 0) (some (fun _ => true)) = some (none, cp') ∧
      (cp' = ⟨4, 0, false, false, [], [], [], 0, []⟩ ∨
        growFn ⟨16, 4⟩ ⟨4, 0, false, false, [], [], [], 0, []⟩ (some 0) = some cp') ∧
      cp'.nr_cur_alloc = (⟨4, 0, false, false, [], [], [], 0, []⟩ : KmemCache).nr_cur_alloc ∧
      (∀ u ∈ allSlabs cp',
        (∃ v ∈ allSlabs (⟨4, 0, false, false, [], [], [], 0, []⟩ : KmemCache),
          v.base = u.base ∧ v.num_busy_obj = u.num_busy_obj) ∨
        (u.num_busy_obj = 0 ∧
          u.base ∉ (allSlabs (⟨4, 0, false, false, [], [], [], 0, []⟩ : KmemCache)).map
            Slab.base)) :=
  C6_ctor_failure_returns_slot_to_slab ⟨16, 4⟩
    ⟨4, 0, false, false, [], [], [], 0, []⟩ (some 0) (fun _ => true) 0
    ⟨4, 0, false, false, [], [⟨0, 3, 1, [4, 8]⟩], [], 1, []⟩
    (by decide) (by decide) (by decide) rfl

theorem kmemCacheFree_push_top (P : Params) :
    ∀ fuel (st : FrontState) (buf : Nat) (magAvail : Bool) st' evs,
      kmemCacheFree P st buf magAvail fuel = some (st', evs) →
      Ev.toSlab buf ∉ evs →
      ∃ tl, st'.pcc.loaded.rounds = buf :: tl := by
  intro fuel
  induction fuel with
  | zero =>
    intro st buf ma st' evs h hev
    cases h
  | succ n ih =>
    intro st buf ma st' evs h hev
    unfold kmemCacheFree at h
    by_cases h1 : st.pcc.loaded.rounds.length < st.pcc.magsize
    · rw [if_pos h1] at h
      simp only [Option.some.injEq, Prod.mk.injEq] at h
      obtain ⟨hst, -⟩ := h
      subst hst
      exact ⟨_, rfl⟩
    · rw [if_neg h1] at h
      by_cases h2 : st.pcc.prev.rounds.length < st.pcc.magsize
      · rw [if_pos h2] at h
        exact ih _ _ _ _ _ h hev
      · rw [if_neg h2] at h
        rcases hd : st.depot.empty with _ | ⟨mag, ms⟩
        · rw [hd] at h
          cases ma with
          | true =>
            simp only [eq_self_iff_true, if_true] at h
            exact ih _ _ _ _ _ h hev
          | false =>
            simp only [Bool.false_eq_true, if_false] at h
            rcases hf : freeToSlab P st.cache buf with _ | c'
            · simp [hf] at h
            · simp only [hf, Option.some.injEq, Prod.mk.injEq] at h
              obtain ⟨-, hevs⟩ := h
              exfalso
              apply hev
              rw [← hevs]
              simp
        · rw [hd] at h
          exact ih _ _ _ _ _ h hev

/-- C3 is refuted as stated: with both per-CPU magazines full, no magazine
in the depot, and the non-blocking magazine allocation failing,
`kmem_cache_free(x)` hands `x` straight to the slab layer, and the
following `kmem_cache_alloc` pops the loaded magazine's top — a different
address.  Here `x = 0` is freed and the next allocation returns `4`.  The
starting state satisfies the cache invariant. -/
theorem C3_lifo_locality_counterexample :
    CacheInv ⟨16, 4⟩ ⟨4, 0, false, false, [⟨0, 3, 3, []⟩], [], [], 3, []⟩ ∧
    kmemCacheFree ⟨16, 4⟩
      ⟨⟨⟨[4]⟩, ⟨[8]⟩, 1, 0⟩, ⟨[], [], 0, 0, 1, 0, 0⟩,
       ⟨4, 0, false, false, [⟨0, 3, 3, []⟩], [], [], 3, []⟩⟩ 0 false 10 =
      some (⟨⟨⟨[4]⟩, ⟨[8]⟩, 1, 0⟩, ⟨[], [], 0, 0, 1, 0, 0⟩,
        ⟨4, 0, false, false, [], [⟨0, 3, 2, [0]⟩], [], 2, []⟩⟩, [Ev.toSlab 0]) ∧
    kmemCacheAlloc ⟨16, 4⟩
      ⟨⟨⟨[4]⟩, ⟨[8]⟩, 1, 0⟩, ⟨[], [], 0, 0, 1, 0, 0⟩,
       ⟨4, 0, false, false, [], [⟨0, 3, 2, [0]⟩], [], 2, []⟩⟩ none none 10 =
      some (some 4, ⟨⟨⟨[]⟩, ⟨[8]⟩, 1, 1⟩, ⟨[], [], 0, 0, 1, 0, 0⟩,
        ⟨4, 0, false, false, [], [⟨0, 3, 2, [0]⟩], [], 2, []⟩⟩) ∧
    (4 : Nat) ≠ 0 := by
  decide

/-- C3 (amended): if `kmem_cache_free(x)` completes inside the magazine
layer — it does not fall through to the slab back-end (no `toSlab` event) —
then `x` sits on top of the loaded magazine, and the next
`kmem_cache_alloc` on the same CPU with no other traffic returns exactly
`x`. -/
theorem C3_free_then_alloc_lifo
    (P : Params) (st : FrontState) (x : Nat) (magAvail : Bool)
    (fuel fuel2 : Nat) (src : Option Nat) (ctor : Option (Nat → Bool))
    (st' : FrontState) (evs : List Ev)
    (hfree : kmemCacheFree P st x magAvail fuel = some (st', evs))
    (hmag : Ev.toSlab x ∉ evs) :
    ∃ st'', kmemCacheAlloc P st' src ctor (fuel2 + 1) = some (some x, st'') := by
  obtain ⟨tl, htl⟩ := kmemCacheFree_push_top P fuel st x magAvail st' evs hfree hmag
  refine ⟨{ st' with pcc := { st'.pcc with loaded := Magazine.mk tl, nr_allocs_ever := st'.pcc.nr_allocs_ever + 1 } }, ?_⟩
  unfold kmemCacheAlloc
  simp only [htl]

/-- Witness for the amended C3 at a concrete state: free 9 into an empty
loaded magazine, then allocate it back. -/
theorem C3_free_then_alloc_lifo_witness :
    ∃ st'', kmemCacheAlloc ⟨16, 4⟩
      ⟨⟨⟨[9]⟩, ⟨[]⟩, 1, 0⟩, ⟨[], [], 0, 0, 1, 0, 0⟩,
       ⟨4, 0, false, false, [], [], [], 0, []⟩⟩ none none 1 =
      some (some 9, st'') :=
  C3_free_then_alloc_lifo ⟨16, 4⟩
    ⟨⟨⟨[]⟩, ⟨[]⟩, 1, 0⟩, ⟨[], [], 0, 0, 1, 0, 0⟩,
     ⟨4, 0, false, false, [], [], [], 0, []⟩⟩ 9 false 1 0 none none
    ⟨⟨⟨[9]⟩, ⟨[]⟩, 1, 0⟩, ⟨[], [], 0, 0, 1, 0, 0⟩,
     ⟨4, 0, false, false, [], [], [], 0, []⟩⟩ [] (by decide) (by simp)

theorem ite_ite_some {α : Type} (c1 c2 : Prop) [Decidable c1] [Decidable c2]
    (a b c : α) :
    ∃ x, (if c1 then some a else if c2 then some b else some c) = some x := by
  by_cases h1 : c1
  · exact ⟨a, by simp [h1]⟩
  · by_cases h2 : c2
    · exact ⟨b, by simp [h1, h2]⟩
    · exact ⟨c, by simp [h1, h2]⟩

theorem yankBufctl_total (hash : List Bufctl) (buf : Nat)
    (h : buf ∈ hash.map Bufctl.buf_addr) :
    ∃ bc h', yankBufctl hash buf = some (bc, h') ∧ bc ∈ hash ∧ bc.buf_addr = buf := by
  induction hash with
  | nil => simp at h
  | cons bc rest ih =>
    by_cases hb : bc.buf_addr = buf
    · exact ⟨bc, rest, by simp [yankBufctl, hb], List.mem_cons_self _ _, hb⟩
    · have hmem : buf ∈ rest.map Bufctl.buf_addr := by
        simp only [List.map_cons, List.mem_cons] at h
        rcases h with h | h
        · exact absurd h.symm hb
        · exact h
      obtain ⟨bc', h', hy, hm, hba⟩ := ih hmem
      exact ⟨bc', bc :: h', by simp [yankBufctl, hb, hy], List.mem_cons_of_mem _ hm, hba⟩

theorem findSlab_isSome (cp : KmemCache) (b : Nat)
    (h : ∃ s ∈ allSlabs cp, s.base = b) : ∃ u, findSlab cp b = some u := by
  obtain ⟨s, hs, hb⟩ := h
  have hsome : ((allSlabs cp).find? (fun t => t.base = b)).isSome := by
    rw [List.find?_isSome]
    exact ⟨s, hs, by simp [hb]⟩
  obtain ⟨u, hu⟩ := Option.isSome_iff_exists.mp hsome
  exact ⟨u, hu⟩

theorem freeToSlab_total
    (P : Params) (cp : KmemCache) (buf : Nat) (s : Slab)
    (hinv : CacheInv P cp) (hs : s ∈ allSlabs cp)
    (hbuf : buf ∈ slabSlots cp.obj_size s) (hnf : buf ∉ s.freelist) :
    ∃ cp', freeToSlab P cp buf = some cp' := by
  unfold CacheInv at hinv
  obtain ⟨hobj, hrec, hrecpg, hwf, hemp, hpart, hfull,
    hbases, hdisj, hhemb, hhmem, hhnd, hhcomp⟩ := hinv
  unfold freeToSlab
  cases hub : cp.use_bufctl
  · simp only [Bool.false_eq_true, if_false]
    have hwfs := hwf s hs
    unfold SlabWF at hwfs
    obtain ⟨-, -, -, -, -, hembs⟩ := hwfs
    obtain ⟨hal, hfit⟩ := hembs hub
    rw [rounddown_slot P cp.obj_size s buf hal hfit hrec hbuf]
    obtain ⟨u, hu⟩ := findSlab_isSome cp s.base ⟨s, hs, rfl⟩
    rw [hu]
    exact ite_ite_some _ _ _ _ _
  · simp only [if_true]
    have hcm : buf ∈ hashAddrs cp := hhcomp hub s hs buf hbuf hnf
    obtain ⟨bc, h', hy, hmem, hba⟩ := yankBufctl_total cp.alloc_hash buf hcm
    simp only [hy]
    obtain ⟨s2, hs2, hbase2, -, -⟩ := hhmem bc hmem
    obtain ⟨u, hu⟩ := findSlab_isSome { cp with use_bufctl := true, alloc_hash := h' }
      bc.my_slab ⟨s2, hs2, hbase2⟩
    simp only [hu]
    exact ite_ite_some _ _ _ _ _

/-- C7: on the free path, with both per-CPU magazines out of room, no empty
magazine in the depot, and the non-blocking magazine allocation failing,
`kmem_cache_free` does not fail: it runs the destructor on the object
exactly when one is set and hands the object straight to the slab back-end
(`__kmem_free_to_slab`).  The slab-layer hypotheses say `buf` is a
currently-busy slot of one of the cache's slabs. -/
theorem C7_magazine_alloc_failure_bypasses_to_slab
    (P : Params) (st : FrontState) (buf : Nat) (fuel : Nat) (s : Slab)
    (hinv : CacheInv P st.cache)
    (hs : s ∈ allSlabs st.cache)
    (hbuf : buf ∈ slabSlots st.cache.obj_size s)
    (hnf : buf ∉ s.freelist)
    (hl : ¬ st.pcc.loaded.rounds.length < st.pcc.magsize)
    (hpv : ¬ st.pcc.prev.rounds.length < st.pcc.magsize)
    (hde : st.depot.empty = []) :
    ∃ c', freeToSlab P st.cache buf = some c' ∧
      kmemCacheFree P st buf false (fuel + 1) =
        some ({ st with pcc := { st.pcc with magsize := st.depot.magsize },
                        cache := c' },
          (if st.cache.has_dtor then [Ev.dtorRun buf] else []) ++ [Ev.toSlab buf]) := by
  obtain ⟨c', hc'⟩ := freeToSlab_total P st.cache buf s hinv hs hbuf hnf
  refine ⟨c', hc', ?_⟩
  unfold kmemCacheFree
  rw [if_neg hl, if_neg hpv]
  simp only [hde, Bool.false_eq_true, if_false, hc']

/-- Witness for C7: both magazines full at magsize 1, empty depot, magazine
allocation failing, no destructor set. -/
theorem C7_magazine_alloc_failure_bypasses_to_slab_witness :
    ∃ c', freeToSlab ⟨16, 4⟩
        ⟨4, 0, false, false, [⟨0, 3, 3, []⟩], [], [], 3, []⟩ 0 = some c' ∧
      kmemCacheFree ⟨16, 4⟩
        ⟨⟨⟨[4]⟩, ⟨[8]⟩, 1, 0⟩, ⟨[], [], 0, 0, 1, 0, 0⟩,
         ⟨4, 0, false, false, [⟨0, 3, 3, []⟩], [], [], 3, []⟩⟩ 0 false 10 =
        some (⟨⟨⟨[4]⟩, ⟨[8]⟩, 1, 0⟩, ⟨[], [], 0, 0, 1, 0, 0⟩, c'⟩,
          [Ev.toSlab 0]) :=
  C7_magazine_alloc_failure_bypasses_to_slab ⟨16, 4⟩
    ⟨⟨⟨[4]⟩, ⟨[8]⟩, 1, 0⟩, ⟨[], [], 0, 0, 1, 0, 0⟩,
     ⟨4, 0, false, false, [⟨0, 3, 3, []⟩], [], [], 3, []⟩⟩ 0 9 ⟨0, 3, 3, []⟩
    (by decide) (by decide) (by decide) (by decide) (by decide) (by decide) rfl

theorem ensurePartial_nr (P : Params) (cp : KmemCache) (src : Option Nat)
    (cp1 : KmemCache) (h : ensurePartial P cp src = some cp1) :
    cp1.nr_cur_alloc = cp.nr_cur_alloc := by
  rcases hp : cp.partial_slab_list with _ | ⟨s, ps⟩
  · rcases he : cp.empty_slab_list with _ | ⟨s, es⟩
    · rcases hg : growFn P cp src with _ | cpg
      · exfalso
        unfold ensurePartial at h
        rw [hp] at h
        simp [he, hg] at h
      · obtain ⟨ns, -, hshape, -⟩ := growFn_shape P cp cpg src hg
        rw [ensurePartial_grow P cp cpg src hp he hg] at h
        subst hshape
        rw [ensurePartial_of_empty P
          { cp with empty_slab_list := ns :: cp.empty_slab_list } src hp rfl] at h
        simp only [Option.some.injEq] at h
        subst h
        rfl
    · rw [ensurePartial_of_empty P cp src hp he] at h
      simp only [Option.some.injEq] at h
      subst h
      rfl
  · rw [ensurePartial_of_partialHead P cp src hp] at h
    simp only [Option.some.injEq] at h
    subst h
    rfl

theorem allocPop_nr (cp1 : KmemCache) (r : Nat) (cp2 : KmemCache)
    (h : allocPop cp1 = some (r, cp2)) :
    cp2.nr_cur_alloc = cp1.nr_cur_alloc + 1 := by
  rcases hp : cp1.partial_slab_list with _ | ⟨s, ps⟩
  · unfold allocPop at h
    simp [hp] at h
  · rcases hfl : s.freelist with _ | ⟨r0, rest⟩
    · unfold allocPop at h
      simp [hp, hfl] at h
    · rw [allocPop_eq cp1 hp hfl] at h
      simp only [Option.some.injEq, Prod.mk.injEq] at h
      obtain ⟨-, h2⟩ := h
      subst h2
      by_cases hub : cp1.use_bufctl = true <;>
        by_cases hfc : s.num_busy_obj + 1 = s.num_total_obj <;>
        simp [hub, hfc]

theorem freeToSlab_nr (P : Params) (cp : KmemCache) (buf : Nat) (cp' : KmemCache)
    (h : freeToSlab P cp buf = some cp') :
    cp'.nr_cur_alloc = cp.nr_cur_alloc - 1 := by
  unfold freeToSlab at h
  by_cases hub : cp.use_bufctl = true
  · simp only [if_pos hub] at h
    rcases hy : yankBufctl cp.alloc_hash buf with _ | ⟨bc, hh⟩
    · simp [hy] at h
    · simp only [hy] at h
      rcases hf : findSlab { cp with alloc_hash := hh } bc.my_slab with _ | u
      · simp [hf] at h
      · simp only [hf] at h
        split at h
        · simp only [Option.some.injEq] at h
          subst h
          rfl
        · split at h
          · simp only [Option.some.injEq] at h
            subst h
            rfl
          · simp only [Option.some.injEq] at h
            subst h
            rfl
  · simp only [if_neg hub] at h
    rcases hf : findSlab cp (buf / P.pgsize * P.pgsize) with _ | u
    · simp [hf] at h
    · simp only [hf] at h
      split at h
      · simp only [Option.some.injEq] at h
        subst h
        rfl
      · split at h
        · simp only [Option.some.injEq] at h
          subst h
          rfl
        · simp only [Option.some.injEq] at h
          subst h
          rfl

theorem allocFromSlab_nr (P : Params) (cp : KmemCache) (src : Option Nat)
    (ctor : Option (Nat → Bool)) (res : Option Nat) (c' : KmemCache)
    (h : allocFromSlab P cp src ctor = some (res, c')) :
    c'.nr_cur_alloc = cp.nr_cur_alloc + (if res.isSome then 1 else 0) := by
  unfold allocFromSlab at h
  rcases hc : allocCore P cp src with _ | ⟨r, cp1⟩
  · simp [hc] at h
  · simp only [hc] at h
    have h1 : cp1.nr_cur_alloc = cp.nr_cur_alloc + 1 := by
      unfold allocCore at hc
      rcases he : ensurePartial P cp src with _ | cpE
      · simp [he] at hc
      · simp only [he] at hc
        rw [allocPop_nr cpE r cp1 hc, ensurePartial_nr P cp src cpE he]
    rcases ctor with _ | f
    · simp only [Option.some.injEq, Prod.mk.injEq] at h
      obtain ⟨hres, hcc⟩ := h
      rw [← hcc, h1, ← hres]
      simp
    · by_cases hf : f r = true
      · simp only [hf, eq_self_iff_true, if_true] at h
        rcases hfs : freeToSlab P cp1 r with _ | cp2
        · simp [hfs] at h
        · simp only [hfs, Option.some.injEq, Prod.mk.injEq] at h
          obtain ⟨hres, hcc⟩ := h
          rw [← hcc, freeToSlab_nr P cp1 r cp2 hfs, h1, ← hres]
          simp
      · simp only [if_neg hf] at h
        simp only [Option.some.injEq, Prod.mk.injEq] at h
        obtain ⟨hres, hcc⟩ := h
        rw [← hcc, h1, ← hres]
        simp

theorem depotRounds_return (d : Depot) (m : Magazine) :
    ((returnToDepot d m).not_empty.map (fun mg => mg.rounds.length)).sum
      + ((returnToDepot d m).empty.map (fun mg => mg.rounds.length)).sum
    = (d.not_empty.map (fun mg => mg.rounds.length)).sum
      + (d.empty.map (fun mg => mg.rounds.length)).sum + m.rounds.length := by
  unfold returnToDepot
  by_cases hm : magIsEmpty m = true <;> simp [hm] <;> omega

theorem kmemCacheAlloc_measure (P : Params) :
    ∀ fuel (st : FrontState) (src : Option Nat) (ctor : Option (Nat → Bool)) res st',
      kmemCacheAlloc P st src ctor fuel = some (res, st') →
      (st'.cache.nr_cur_alloc - (magRounds st' : Int)) =
        st.cache.nr_cur_alloc - magRounds st + (if res.isSome then 1 else 0) := by
  intro fuel
  induction fuel with
  | zero =>
    intro st src ctor res st' h
    cases h
  | succ n ih =>
    intro st src ctor res st' h
    unfold kmemCacheAlloc at h
    rcases hl : st.pcc.loaded.rounds with _ | ⟨r, rest⟩
    · simp only [hl] at h
      by_cases hpv : magIsEmpty st.pcc.prev = false
      · rw [if_pos hpv] at h
        rw [ih _ src ctor res st' h]
        simp only [magRounds, swapMags]
        omega
      · rw [if_neg hpv] at h
        rcases hd : st.depot.not_empty with _ | ⟨mag, ms⟩
        · simp only [hd] at h
          rcases ha : allocFromSlab P st.cache src ctor with _ | ⟨res0, c'⟩
          · simp only [ha, Option.some.injEq, Prod.mk.injEq] at h
            obtain ⟨hres, hst⟩ := h
            rw [← hst, ← hres]
            simp
          · simp only [ha, Option.some.injEq, Prod.mk.injEq] at h
            obtain ⟨hres, hst⟩ := h
            rw [← hst, ← hres]
            have hnr := allocFromSlab_nr P st.cache src ctor res0 c' ha
            simp only [magRounds, hnr]
            rcases res0 with _ | v
            · simp
            · simp only [Option.isSome_some, if_true]
              omega
        · simp only [hd] at h
          rw [ih _ src ctor res st' h]
          have hpv2 : st.pcc.prev.rounds.length = 0 := by
            simp only [magIsEmpty, decide_eq_false_iff_not] at hpv
            omega
          have hret := depotRounds_return
            { st.depot with not_empty := ms,
                            nr_not_empty := st.depot.nr_not_empty - 1 } st.pcc.prev
          simp only [magRounds, hd, hl, List.map_cons, List.sum_cons,
            List.length_nil] at hret ⊢
          omega
    · simp only [hl] at h
      simp only [Option.some.injEq, Prod.mk.injEq] at h
      obtain ⟨hres, hst⟩ := h
      rw [← hst, ← hres]
      simp only [magRounds, hl, List.length_cons]
      simp
      omega

theorem kmemCacheFree_measure (P : Params) :
    ∀ fuel (st : FrontState) (buf : Nat) (ma : Bool) st' evs,
      kmemCacheFree P st buf ma fuel = some (st', evs) →
      (st'.cache.nr_cur_alloc - (magRounds st' : Int)) =
        st.cache.nr_cur_alloc - magRounds st - 1 := by
  intro fuel
  induction fuel with
  | zero =>
    intro st buf ma st' evs h
    cases h
  | succ n ih =>
    intro st buf ma st' evs h
    unfold kmemCacheFree at h
    by_cases h1 : st.pcc.loaded.rounds.length < st.pcc.magsize
    · rw [if_pos h1] at h
      simp only [Option.some.injEq, Prod.mk.injEq] at h
      obtain ⟨hst, -⟩ := h
      rw [← hst]
      simp only [magRounds, List.length_cons]
      omega
    · rw [if_neg h1] at h
      by_cases h2 : st.pcc.prev.rounds.length < st.pcc.magsize
      · rw [if_pos h2] at h
        rw [ih _ _ _ _ _ h]
        simp only [magRounds, swapMags]
        omega
      · rw [if_neg h2] at h
        rcases hd : st.depot.empty with _ | ⟨mag, ms⟩
        · simp only [hd] at h
          cases ma with
          | false =>
            simp only [Bool.false_eq_true, if_false] at h
            rcases hf : freeToSlab P st.cache buf with _ | c'
            · simp [hf] at h
            · simp only [hf, Option.some.injEq, Prod.mk.injEq] at h
              obtain ⟨hst, -⟩ := h
              rw [← hst]
              have hnr := freeToSlab_nr P st.cache buf c' hf
              simp only [magRounds, hnr]
              omega
          | true =>
            simp only [eq_self_iff_true, if_true] at h
            rw [ih _ _ _ _ _ h]
            simp only [magRounds, hd, List.map_cons, List.sum_cons, List.map_nil,
              List.sum_nil, List.length_nil]
            omega
        · simp only [hd] at h
          rw [ih _ _ _ _ _ h]
          have hret := depotRounds_return
            { st.depot with empty := ms, nr_empty := st.depot.nr_empty - 1 }
            st.pcc.prev
          simp only [magRounds, hd, List.map_cons, List.sum_cons] at hret ⊢
          omega

theorem runOps_measure (P : Params) (ctor : Option (Nat → Bool)) (fuel : Nat) :
    ∀ ops (st : FrontState) (outs : List Nat) st' outs',
      runOps P ctor fuel ops st outs = some (st', outs') →
      st'.cache.nr_cur_alloc - (magRounds st' : Int) - outs'.length =
        st.cache.nr_cur_alloc - magRounds st - outs.length := by
  intro ops
  induction ops with
  | nil =>
    intro st outs st' outs' h
    simp only [runOps, Option.some.injEq, Prod.mk.injEq] at h
    obtain ⟨h1, h2⟩ := h
    rw [← h1, ← h2]
  | cons op ops ih =>
    intro st outs st' outs' h
    cases op with
    | alloc src =>
      unfold runOps at h
      rcases ha : kmemCacheAlloc P st src ctor fuel with _ | ⟨res, st1⟩
      · simp [ha] at h
      · rcases res with _ | r
        · simp only [ha] at h
          rw [ih _ _ _ _ h]
          have hm := kmemCacheAlloc_measure P fuel st src ctor none st1 ha
          simp only [Option.isSome_none, Bool.false_eq_true, if_false] at hm
          omega
        · simp only [ha] at h
          rw [ih _ _ _ _ h]
          have hm := kmemCacheAlloc_measure P fuel st src ctor (some r) st1 ha
          simp only [Option.isSome_some, if_true] at hm
          simp only [List.length_cons]
          omega
    | free buf ma =>
      unfold runOps at h
      by_cases hb : buf ∈ outs
      · rw [if_pos hb] at h
        rcases hf : kmemCacheFree P st buf ma fuel with _ | ⟨st1, evs⟩
        · simp [hf] at h
        · simp only [hf] at h
          rw [ih _ _ _ _ h]
          have hm := kmemCacheFree_measure P fuel st buf ma st1 evs hf
          have hlen : (outs.erase buf).length = outs.length - 1 :=
            List.length_erase_of_mem hb
          have hpos : 0 < outs.length := List.length_pos_of_mem hb
          omega
      · rw [if_neg hb] at h
        cases h

/-- C5 (amended): across any balanced sequence of `kmem_cache_alloc` /
`kmem_cache_free` calls on one CPU (each allocated object freed exactly
once, tracked by `runOps`'s outstanding list ending empty), the cache's
`nr_cur_alloc` equals the number of object pointers cached in the magazine
layer (loaded and previous magazines plus both depot lists) — not zero.
The counter counts objects outside the slab back-end, and freed objects
stay cached in magazines. -/
theorem C5_balanced_sequence_counter
    (P : Params) (ctor : Option (Nat → Bool)) (fuel : Nat) (ops : List KOp)
    (st0 st' : FrontState)
    (hinit : st0.cache.nr_cur_alloc = (magRounds st0 : Int))
    (hrun : runOps P ctor fuel ops st0 [] = some (st', [])) :
    st'.cache.nr_cur_alloc = (magRounds st' : Int) := by
  have hm := runOps_measure P ctor fuel ops st0 [] st' [] hrun
  simp only [List.length_nil] at hm
  omega

/-- C5 is refuted as stated: a balanced alloc/free pair on a fresh cache
(invariant-satisfying) ends with the freed object cached in the loaded
magazine and `nr_cur_alloc = 1`, not zero. -/
theorem C5_balanced_zero_counterexample :
    CacheInv ⟨16, 4⟩ ⟨4, 0, false, false, [], [], [], 0, []⟩ ∧
    runOps ⟨16, 4⟩ none 10 [KOp.alloc (some 0), KOp.free 0 true]
      ⟨⟨⟨[]⟩, ⟨[]⟩, 1, 0⟩, ⟨[], [], 0, 0, 1, 0, 0⟩,
       ⟨4, 0, false, false, [], [], [], 0, []⟩⟩ [] =
      some (⟨⟨⟨[0]⟩, ⟨[]⟩, 1, 0⟩, ⟨[], [], 0, 0, 1, 0, 0⟩,
        ⟨4, 0, false, false, [], [⟨0, 3, 1, [4, 8]⟩], [], 1, []⟩⟩, []) ∧
    ((⟨4, 0, false, false, [], [⟨0, 3, 1, [4, 8]⟩], [], 1, []⟩ : KmemCache).nr_cur_alloc
      ≠ 0) := by
  decide

/-- Witness for the amended C5 on the concrete balanced pair. -/
theorem C5_balanced_sequence_counter_witness :
    (⟨⟨⟨[0]⟩, ⟨[]⟩, 1, 0⟩, ⟨[], [], 0, 0, 1, 0, 0⟩,
      ⟨4, 0, false, false, [], [⟨0, 3, 1, [4, 8]⟩], [], 1, []⟩⟩ : FrontState).cache.nr_cur_alloc =
    (magRounds ⟨⟨⟨[0]⟩, ⟨[]⟩, 1, 0⟩, ⟨[], [], 0, 0, 1, 0, 0⟩,
      ⟨4, 0, false, false, [], [⟨0, 3, 1, [4, 8]⟩], [], 1, []⟩⟩ : Int) :=
  C5_balanced_sequence_counter ⟨16, 4⟩ none 10
    [KOp.alloc (some 0), KOp.free 0 true]
    ⟨⟨⟨[]⟩, ⟨[]⟩, 1, 0⟩, ⟨[], [], 0, 0, 1, 0, 0⟩,
     ⟨4, 0, false, false, [], [], [], 0, []⟩⟩
    ⟨⟨⟨[0]⟩, ⟨[]⟩, 1, 0⟩, ⟨[], [], 0, 0, 1, 0, 0⟩,
     ⟨4, 0, false, false, [], [⟨0, 3, 1, [4, 8]⟩], [], 1, []⟩⟩
    (by decide) (by decide)

theorem eq_of_mem_base_nodup {l : List Slab}
    (hnd : (l.map Slab.base).Nodup) {s t : Slab}
    (hs : s ∈ l) (ht : t ∈ l) (hb : s.base = t.base) : s = t := by
  induction l with
  | nil => cases hs
  | cons x xs ih =>
    simp only [List.map_cons, List.nodup_cons] at hnd
    rcases List.mem_cons.mp hs with rfl | hs' <;>
      rcases List.mem_cons.mp ht with rfl | ht'
    · rfl
    · exact absurd (hb ▸ List.mem_map_of_mem Slab.base ht') hnd.1
    · exact absurd (hb ▸ List.mem_map_of_mem Slab.base hs') hnd.1
    · exact ih hnd.2 hs' ht'

theorem eq_of_mem_slots_pairwise {objsz : Nat} {l : List Slab}
    (hdisj : (l.map (slabSlots objsz)).Pairwise (fun A B => ∀ a ∈ A, a ∉ B))
    {s t : Slab} (hs : s ∈ l) (ht : t ∈ l) {a : Nat}
    (has : a ∈ slabSlots objsz s) (hat : a ∈ slabSlots objsz t) : s = t := by
  induction l with
  | nil => cases hs
  | cons x xs ih =>
    simp only [List.map_cons, List.pairwise_cons] at hdisj
    rcases List.mem_cons.mp hs with rfl | hs' <;>
      rcases List.mem_cons.mp ht with rfl | ht'
    · rfl
    · exact absurd hat (hdisj.1 _ (List.mem_map_of_mem _ ht') a has)
    · exact absurd has (hdisj.1 _ (List.mem_map_of_mem _ hs') a hat)
    · exact ih hdisj.2 hs' ht'

theorem slots_rel_symmetric :
    Symmetric (fun A B : List Nat => ∀ a ∈ A, a ∉ B) := by
  intro A B h a ha hA
  exact h a hA ha

theorem slabSlots_congr {objsz : Nat} {s s' : Slab}
    (hb : s'.base = s.base) (ht : s'.num_total_obj = s.num_total_obj) :
    slabSlots objsz s' = slabSlots objsz s := by
  unfold slabSlots
  rw [hb, ht]

theorem base_ne_of_nodup_mem {L : List Slab} {s t : Slab}
    (hnd : (L.map Slab.base).Nodup) (hs : s ∈ L) (ht : t ∈ L) (hne : t ≠ s) :
    t.base ≠ s.base :=
  fun he => hne (eq_of_mem_base_nodup hnd ht hs he)

theorem not_mem_of_nodup_middle {l1 l2 : List Slab} {s : Slab}
    (hnd : (l1 ++ s :: l2).Nodup) : s ∉ l1 ∧ s ∉ l2 := by
  rw [List.nodup_append] at hnd
  exact ⟨fun h => hnd.2.2 h (List.mem_cons_self _ _), (List.nodup_cons.mp hnd.2.1).1⟩

theorem setSlab_append (l1 l2 : List Slab) (b : Nat) (s' : Slab) :
    setSlab (l1 ++ l2) b s' = setSlab l1 b s' ++ setSlab l2 b s' := by
  simp [setSlab]

theorem setSlab_decomp {l1 l2 : List Slab} {s s' : Slab}
    (h1 : ∀ t ∈ l1, t.base ≠ s.base) (h2 : ∀ t ∈ l2, t.base ≠ s.base) :
    setSlab (l1 ++ s :: l2) s.base s' = l1 ++ s' :: l2 := by
  rw [setSlab_append, setSlab_eq_of_forall_ne h1, setSlab_head_tail rfl h2]

theorem eraseBase_decomp {l1 l2 : List Slab} {s : Slab} {b : Nat} (hb : s.base = b)
    (h1 : ∀ t ∈ l1, t.base ≠ b) :
    eraseBase (l1 ++ s :: l2) b = l1 ++ l2 := by
  induction l1 with
  | nil => simpa using eraseBase_cons_self hb
  | cons x xs ih =>
    have hx : ¬ (decide (x.base = b) = true) := by
      simp [h1 x (List.mem_cons_self _ _)]
    simp only [List.cons_append, eraseBase, List.eraseP_cons, hx, if_false]
    have := ih (fun t ht => h1 t (List.mem_cons_of_mem _ ht))
    simpa [eraseBase] using this

theorem yankBufctl_decomp {h1 h2 : List Bufctl} {bc : Bufctl} {buf : Nat}
    (hne : ∀ b ∈ h1, b.buf_addr ≠ buf) (hbc : bc.buf_addr = buf) :
    yankBufctl (h1 ++ bc :: h2) buf = some (bc, h1 ++ h2) := by
  induction h1 with
  | nil => simpa using yankBufctl_cons_self hbc
  | cons x xs ih =>
    have hx : x.buf_addr ≠ buf := hne x (List.mem_cons_self _ _)
    rw [List.cons_append, List.cons_append]
    unfold yankBufctl
    rw [if_neg hx, ih (fun b hb => hne b (List.mem_cons_of_mem _ hb))]

theorem find?_base_self {l : List Slab} (hnd : (l.map Slab.base).Nodup) {s : Slab}
    (hs : s ∈ l) : l.find? (fun t => t.base = s.base) = some s := by
  induction l with
  | nil => cases hs
  | cons x xs ih =>
    simp only [List.map_cons, List.nodup_cons] at hnd
    by_cases hx : x.base = s.base
    · have hxs : x = s := by
        rcases List.mem_cons.mp hs with rfl | hs'
        · rfl
        · exact absurd (hx ▸ List.mem_map_of_mem Slab.base hs') hnd.1
      rw [List.find?_cons_of_pos _ (by simp [hx]), hxs]
    · have hs' : s ∈ xs := by
        rcases List.mem_cons.mp hs with rfl | hs'
        · exact absurd rfl hx
        · exact hs'
      rw [List.find?_cons_of_neg _ (by simp [hx])]
      exact ih hnd.2 hs'

theorem mem_rest_of_ne {L : List Slab} {s t : Slab}
    (ht : t ∈ L) (hne : t ≠ s) : t ∈ L.erase s := by
  rw [List.mem_erase_of_ne hne]
  exact ht

theorem not_self_mem_erase {L : List Slab} {s : Slab} (hnd : L.Nodup) :
    s ∉ L.erase s := by
  intro h
  exact (List.Nodup.mem_erase_iff hnd).mp h |>.1 rfl

theorem cacheInv_replace
    (P : Params) (cp cp' : KmemCache) (s s' : Slab) (rest : List Slab)
    (hinv : CacheInv P cp)
    (hosz : cp'.obj_size = cp.obj_size) (hub : cp'.use_bufctl = cp.use_bufctl)
    (hpold : (allSlabs cp).Perm (s :: rest))
    (hpnew : (allSlabs cp').Perm (s' :: rest))
    (hb : s'.base = s.base) (ht : s'.num_total_obj = s.num_total_obj)
    (hwf' : SlabWF P cp.use_bufctl cp.obj_size s')
    (hemp : ∀ t ∈ cp'.empty_slab_list, t.num_busy_obj = 0)
    (hpar : ∀ t ∈ cp'.partial_slab_list,
        0 < t.num_busy_obj ∧ t.num_busy_obj < t.num_total_obj)
    (hful : ∀ t ∈ cp'.full_slab_list, t.num_busy_obj = t.num_total_obj)
    (hhe : cp.use_bufctl = false → cp'.alloc_hash = [])
    (hhm : ∀ bc ∈ cp'.alloc_hash, ∃ t, (t = s' ∨ t ∈ rest) ∧ t.base = bc.my_slab ∧
        bc.buf_addr ∈ slabSlots cp.obj_size t ∧ bc.buf_addr ∉ t.freelist)
    (hhn : (hashAddrs cp').Nodup)
    (hhc : cp.use_bufctl = true → ∀ t, (t = s' ∨ t ∈ rest) →
        ∀ a ∈ slabSlots cp.obj_size t, a ∉ t.freelist → a ∈ hashAddrs cp') :
    CacheInv P cp' := by
  obtain ⟨h1, h2, h3, hwf, _, _, _, hnd, hdisj, _, _, _, _⟩ := hinv
  have hmem' : ∀ t ∈ allSlabs cp', t = s' ∨ t ∈ rest := by
    intro t htm
    exact List.mem_cons.mp (hpnew.mem_iff.mp htm)
  have hrest_old : ∀ t ∈ rest, t ∈ allSlabs cp := by
    intro t htm
    exact hpold.mem_iff.mpr (List.mem_cons_of_mem _ htm)
  have hmap_base : ((allSlabs cp').map Slab.base).Perm ((allSlabs cp).map Slab.base) := by
    have e1 := hpnew.map Slab.base
    have e2 := hpold.map Slab.base
    rw [List.map_cons] at e1 e2
    rw [hb] at e1
    exact e1.trans e2.symm
  have hmap_slots : ((allSlabs cp').map (slabSlots cp.obj_size)).Perm
      ((allSlabs cp).map (slabSlots cp.obj_size)) := by
    have e1 := hpnew.map (slabSlots cp.obj_size)
    have e2 := hpold.map (slabSlots cp.obj_size)
    rw [List.map_cons] at e1 e2
    rw [slabSlots_congr hb ht] at e1
    exact e1.trans e2.symm
  refine ⟨?_, h2, h3, ?_, hemp, hpar, hful, ?_, ?_, ?_, ?_, hhn, ?_⟩
  · rw [hosz]; exact h1
  · intro t htm
    rw [hub, hosz]
    rcases hmem' t htm with rfl | hr
    · exact hwf'
    · exact hwf t (hrest_old t hr)
  · exact hmap_base.symm.nodup hnd
  · rw [hosz]
    exact (List.Perm.pairwise_iff (fun h => slots_rel_symmetric h) hmap_slots).mpr hdisj
  · intro h0
    rw [hub] at h0
    exact hhe h0
  · intro bc hbc
    obtain ⟨t, htm, hbase, hslot, hfl⟩ := hhm bc hbc
    refine ⟨t, ?_, hbase, by rw [hosz]; exact hslot, hfl⟩
    rcases htm with rfl | hr
    · exact hpnew.mem_iff.mpr (List.mem_cons_self _ _)
    · exact hpnew.mem_iff.mpr (List.mem_cons_of_mem _ hr)
  · intro hub' t htm a ha hfl
    rw [hub] at hub'
    rw [hosz] at ha
    exact hhc hub' t (hmem' t htm) a ha hfl

theorem freeToSlab_embedded_eq (P : Params) (cp : KmemCache) (buf : Nat) {s : Slab}
    (hub : cp.use_bufctl = false)
    (hfind : findSlab cp (buf / P.pgsize * P.pgsize) = some s) :
    freeToSlab P cp buf = some (freeTail cp s buf) := by
  have hbase : s.base = buf / P.pgsize * P.pgsize := by
    simpa using List.find?_some hfind
  unfold freeToSlab
  simp only [hub, Bool.false_eq_true, if_false, hfind]
  rw [hbase.symm]
  simp only [freeTail, hub]
  split
  · rfl
  · split
    · rfl
    · rfl

theorem freeToSlab_bufctl_eq (P : Params) (cp : KmemCache) (buf : Nat)
    {bc : Bufctl} {hash' : List Bufctl} {s : Slab}
    (hub : cp.use_bufctl = true)
    (hyank : yankBufctl cp.alloc_hash buf = some (bc, hash'))
    (hfind : findSlab { cp with alloc_hash := hash' } bc.my_slab = some s) :
    freeToSlab P cp buf = some (freeTail { cp with alloc_hash := hash' } s buf) := by
  have hbase : s.base = bc.my_slab := by
    simpa using List.find?_some hfind
  unfold freeToSlab
  rw [hub] at hfind
  simp only [hub, eq_self_iff_true, if_true, hyank, hfind]
  rw [← hbase]
  simp only [freeTail]
  split
  · rfl
  · split
    · rfl
    · rfl

theorem cacheInv_freeTail_full
    (P : Params) (cp : KmemCache) (hash' : List Bufctl) (s : Slab) (buf : Nat)
    (hinv : CacheInv P cp)
    (hsF : s ∈ cp.full_slab_list)
    (hbuf : buf ∈ slabSlots cp.obj_size s) (hnf : buf ∉ s.freelist)
    (hhe : cp.use_bufctl = false → hash' = [])
    (hhm : ∀ bc ∈ hash', ∃ t,
        (t = { s with num_busy_obj := s.num_busy_obj - 1,
                      freelist := buf :: s.freelist } ∨ t ∈ (allSlabs cp).erase s) ∧
        t.base = bc.my_slab ∧ bc.buf_addr ∈ slabSlots cp.obj_size t ∧
        bc.buf_addr ∉ t.freelist)
    (hhn : (hash'.map Bufctl.buf_addr).Nodup)
    (hhc : cp.use_bufctl = true → ∀ t,
        (t = { s with num_busy_obj := s.num_busy_obj - 1,
                      freelist := buf :: s.freelist } ∨ t ∈ (allSlabs cp).erase s) →
        ∀ a ∈ slabSlots cp.obj_size t, a ∉ t.freelist →
        a ∈ hash'.map Bufctl.buf_addr) :
    CacheInv P (freeTail { cp with alloc_hash := hash' } s buf) := by
  have hinv' := hinv
  obtain ⟨ho1, ho2, ho3, hwf, hemp, hpar, hful, hnd, hdisj, hheO, hhmO, hhnO, hhcO⟩ := hinv'
  have hsAll : s ∈ allSlabs cp := by
    simp only [allSlabs, List.mem_append]
    exact Or.inl (Or.inl hsF)
  obtain ⟨htot2, hble, hlen, hflnd, hflsub, hembed⟩ := hwf s hsAll
  have hndAll : (allSlabs cp).Nodup := List.Nodup.of_map _ hnd
  have hbusy : s.num_busy_obj = s.num_total_obj := hful s hsF
  obtain ⟨F1, F2, hF⟩ := List.append_of_mem hsF
  have hndF : cp.full_slab_list.Nodup :=
    List.Nodup.of_append_left (List.Nodup.of_append_left hndAll)
  rw [hF] at hndF
  obtain ⟨hsF1, hsF2⟩ := not_mem_of_nodup_middle hndF
  have hmemAll : ∀ t, t ∈ F1 ∨ t ∈ F2 → t ∈ allSlabs cp := by
    intro t ht
    simp only [allSlabs, List.mem_append]
    refine Or.inl (Or.inl ?_)
    rw [hF]
    rcases ht with h | h
    · exact List.mem_append_left _ h
    · exact List.mem_append_right _ (List.mem_cons_of_mem _ h)
  have hneF1 : ∀ t ∈ F1, t.base ≠ s.base := fun t ht =>
    base_ne_of_nodup_mem hnd hsAll (hmemAll t (Or.inl ht))
      (fun he => hsF1 (he ▸ ht))
  have hneF2 : ∀ t ∈ F2, t.base ≠ s.base := fun t ht =>
    base_ne_of_nodup_mem hnd hsAll (hmemAll t (Or.inr ht))
      (fun he => hsF2 (he ▸ ht))
  have hnotPl : s ∉ cp.partial_slab_list := by
    intro hx
    have h0 := hpar s hx
    omega
  have hnotE : s ∉ cp.empty_slab_list := by
    intro hx
    have h0 := hemp s hx
    omega
  have hnePl : ∀ t ∈ cp.partial_slab_list, t.base ≠ s.base := fun t ht =>
    base_ne_of_nodup_mem hnd hsAll
      (by simp only [allSlabs, List.mem_append]; exact Or.inl (Or.inr ht))
      (fun he => hnotPl (he ▸ ht))
  have hneE : ∀ t ∈ cp.empty_slab_list, t.base ≠ s.base := fun t ht =>
    base_ne_of_nodup_mem hnd hsAll
      (by simp only [allSlabs, List.mem_append]; exact Or.inr ht)
      (fun he => hnotE (he ▸ ht))
  have hcond : s.num_busy_obj - 1 + 1 = s.num_total_obj := by omega
  have hres : freeTail { cp with alloc_hash := hash' } s buf =
      { cp with
        full_slab_list := F1 ++ F2,
        partial_slab_list :=
          { s with num_busy_obj := s.num_busy_obj - 1,
                   freelist := buf :: s.freelist } :: cp.partial_slab_list,
        nr_cur_alloc := cp.nr_cur_alloc - 1,
        alloc_hash := hash' } := by
    simp only [freeTail]
    rw [if_pos hcond]
    simp only [hF, setSlab_decomp hneF1 hneF2, setSlab_eq_of_forall_ne hnePl,
      setSlab_eq_of_forall_ne hneE,
      eraseBase_decomp
        (show ({ s with num_busy_obj := s.num_busy_obj - 1,
                        freelist := buf :: s.freelist } : Slab).base = s.base from rfl)
        hneF1]
  rw [hres]
  have hwf' : SlabWF P cp.use_bufctl cp.obj_size
      { s with num_busy_obj := s.num_busy_obj - 1, freelist := buf :: s.freelist } := by
    refine ⟨htot2, ?_, ?_, List.nodup_cons.mpr ⟨hnf, hflnd⟩, ?_, ?_⟩
    · show s.num_busy_obj - 1 ≤ s.num_total_obj
      omega
    · show (buf :: s.freelist).length + (s.num_busy_obj - 1) = s.num_total_obj
      simp only [List.length_cons]
      omega
    · intro a ha
      rcases List.mem_cons.mp ha with rfl | ha'
      · exact hbuf
      · exact hflsub a ha'
    · intro h0
      exact hembed h0
  have hD : (allSlabs cp).Perm
      (s :: (((F1 ++ F2) ++ cp.partial_slab_list) ++ cp.empty_slab_list)) := by
    have e0 : allSlabs cp =
        ((F1 ++ s :: F2) ++ cp.partial_slab_list) ++ cp.empty_slab_list := by
      simp only [allSlabs, hF]
    rw [e0]
    exact (List.perm_middle.append_right _).append_right _
  have hrest : (((F1 ++ F2) ++ cp.partial_slab_list) ++ cp.empty_slab_list).Perm
      ((allSlabs cp).erase s) :=
    (hD.symm.trans (List.perm_cons_erase hsAll)).cons_inv
  refine cacheInv_replace P cp _ s
      { s with num_busy_obj := s.num_busy_obj - 1, freelist := buf :: s.freelist }
      ((allSlabs cp).erase s) hinv rfl rfl (List.perm_cons_erase hsAll) ?_ rfl rfl hwf'
      ?_ ?_ ?_ hhe hhm hhn hhc
  · exact List.Perm.trans (List.perm_middle.append_right cp.empty_slab_list)
      (List.Perm.cons _ hrest)
  · intro t ht
    exact hemp t ht
  · intro t ht
    rcases List.mem_cons.mp ht with rfl | ht'
    · refine ⟨?_, ?_⟩
      · show 0 < s.num_busy_obj - 1
        omega
      · show s.num_busy_obj - 1 < s.num_total_obj
        omega
    · exact hpar t ht'
  · intro t ht
    rcases List.mem_append.mp ht with h | h
    · exact hful t (by rw [hF]; exact List.mem_append_left _ h)
    · exact hful t (by rw [hF]; exact List.mem_append_right _ (List.mem_cons_of_mem _ h))

theorem cacheInv_freeTail_partialCase
    (P : Params) (cp : KmemCache) (hash' : List Bufctl) (s : Slab) (buf : Nat)
    (hinv : CacheInv P cp)
    (hsP : s ∈ cp.partial_slab_list)
    (hbuf : buf ∈ slabSlots cp.obj_size s) (hnf : buf ∉ s.freelist)
    (hhe : cp.use_bufctl = false → hash' = [])
    (hhm : ∀ bc ∈ hash', ∃ t,
        (t = { s with num_busy_obj := s.num_busy_obj - 1,
                      freelist := buf :: s.freelist } ∨ t ∈ (allSlabs cp).erase s) ∧
        t.base = bc.my_slab ∧ bc.buf_addr ∈ slabSlots cp.obj_size t ∧
        bc.buf_addr ∉ t.freelist)
    (hhn : (hash'.map Bufctl.buf_addr).Nodup)
    (hhc : cp.use_bufctl = true → ∀ t,
        (t = { s with num_busy_obj := s.num_busy_obj - 1,
                      freelist := buf :: s.freelist } ∨ t ∈ (allSlabs cp).erase s) →
        ∀ a ∈ slabSlots cp.obj_size t, a ∉ t.freelist →
        a ∈ hash'.map Bufctl.buf_addr) :
    CacheInv P (freeTail { cp with alloc_hash := hash' } s buf) := by
  have hinv' := hinv
  obtain ⟨ho1, ho2, ho3, hwf, hemp, hpar, hful, hnd, hdisj, hheO, hhmO, hhnO, hhcO⟩ := hinv'
  have hsAll : s ∈ allSlabs cp := by
    simp only [allSlabs, List.mem_append]
    exact Or.inl (Or.inr hsP)
  obtain ⟨htot2, hble, hlen, hflnd, hflsub, hembed⟩ := hwf s hsAll
  have hndAll : (allSlabs cp).Nodup := List.Nodup.of_map _ hnd
  obtain ⟨hbpos, hblt⟩ := hpar s hsP
  obtain ⟨P1, P2, hP⟩ := List.append_of_mem hsP
  have hndP : cp.partial_slab_list.Nodup :=
    List.Nodup.of_append_right (List.Nodup.of_append_left hndAll)
  rw [hP] at hndP
  obtain ⟨hsP1, hsP2⟩ := not_mem_of_nodup_middle hndP
  have hmemAll : ∀ t, t ∈ P1 ∨ t ∈ P2 → t ∈ allSlabs cp := by
    intro t ht
    simp only [allSlabs, List.mem_append]
    refine Or.inl (Or.inr ?_)
    rw [hP]
    rcases ht with h | h
    · exact List.mem_append_left _ h
    · exact List.mem_append_right _ (List.mem_cons_of_mem _ h)
  have hneP1 : ∀ t ∈ P1, t.base ≠ s.base := fun t ht =>
    base_ne_of_nodup_mem hnd hsAll (hmemAll t (Or.inl ht))
      (fun he => hsP1 (he ▸ ht))
  have hneP2 : ∀ t ∈ P2, t.base ≠ s.base := fun t ht =>
    base_ne_of_nodup_mem hnd hsAll (hmemAll t (Or.inr ht))
      (fun he => hsP2 (he ▸ ht))
  have hnotF : s ∉ cp.full_slab_list := by
    intro hx
    have h0 := hful s hx
    omega
  have hnotE : s ∉ cp.empty_slab_list := by
    intro hx
    have h0 := hemp s hx
    omega
  have hneF : ∀ t ∈ cp.full_slab_list, t.base ≠ s.base := fun t ht =>
    base_ne_of_nodup_mem hnd hsAll
      (by simp only [allSlabs, List.mem_append]; exact Or.inl (Or.inl ht))
      (fun he => hnotF (he ▸ ht))
  have hneE : ∀ t ∈ cp.empty_slab_list, t.base ≠ s.base := fun t ht =>
    base_ne_of_nodup_mem hnd hsAll
      (by simp only [allSlabs, List.mem_append]; exact Or.inr ht)
      (fun he => hnotE (he ▸ ht))
  have hcond1 : ¬ (s.num_busy_obj - 1 + 1 = s.num_total_obj) := by omega
  have hwf' : SlabWF P cp.use_bufctl cp.obj_size
      { s with num_busy_obj := s.num_busy_obj - 1, freelist := buf :: s.freelist } := by
    refine ⟨htot2, ?_, ?_, List.nodup_cons.mpr ⟨hnf, hflnd⟩, ?_, ?_⟩
    · show s.num_busy_obj - 1 ≤ s.num_total_obj
      omega
    · show (buf :: s.freelist).length + (s.num_busy_obj - 1) = s.num_total_obj
      simp only [List.length_cons]
      omega
    · intro a ha
      rcases List.mem_cons.mp ha with rfl | ha'
      · exact hbuf
      · exact hflsub a ha'
    · intro h0
      exact hembed h0
  have hD : (allSlabs cp).Perm
      (s :: ((cp.full_slab_list ++ (P1 ++ P2)) ++ cp.empty_slab_list)) := by
    have e0 : allSlabs cp =
        (cp.full_slab_list ++ (P1 ++ s :: P2)) ++ cp.empty_slab_list := by
      simp only [allSlabs, hP]
    rw [e0]
    exact ((List.perm_middle.append_left cp.full_slab_list).append_right _).trans
      (List.perm_middle.append_right _)
  have hrest : ((cp.full_slab_list ++ (P1 ++ P2)) ++ cp.empty_slab_list).Perm
      ((allSlabs cp).erase s) :=
    (hD.symm.trans (List.perm_cons_erase hsAll)).cons_inv
  by_cases hz : s.num_busy_obj - 1 = 0
  · -- the slab empties out: it moves to the empty list
    have hres : freeTail { cp with alloc_hash := hash' } s buf =
        { cp with
          partial_slab_list := P1 ++ P2,
          empty_slab_list :=
            { s with num_busy_obj := s.num_busy_obj - 1,
                     freelist := buf :: s.freelist } :: cp.empty_slab_list,
          nr_cur_alloc := cp.nr_cur_alloc - 1,
          alloc_hash := hash' } := by
      simp only [freeTail]
      rw [if_neg hcond1, if_pos hz]
      simp only [hP, setSlab_decomp hneP1 hneP2, setSlab_eq_of_forall_ne hneF,
        setSlab_eq_of_forall_ne hneE,
        eraseBase_decomp
          (show ({ s with num_busy_obj := s.num_busy_obj - 1,
                          freelist := buf :: s.freelist } : Slab).base = s.base from rfl)
          hneP1]
    rw [hres]
    refine cacheInv_replace P cp _ s
        { s with num_busy_obj := s.num_busy_obj - 1, freelist := buf :: s.freelist }
        ((allSlabs cp).erase s) hinv rfl rfl (List.perm_cons_erase hsAll) ?_ rfl rfl hwf'
        ?_ ?_ ?_ hhe hhm hhn hhc
    · exact List.Perm.trans List.perm_middle (List.Perm.cons _ hrest)
    · intro t ht
      rcases List.mem_cons.mp ht with rfl | ht'
      · exact hz
      · exact hemp t ht'
    · intro t ht
      rcases List.mem_append.mp ht with h | h
      · exact hpar t (by rw [hP]; exact List.mem_append_left _ h)
      · exact hpar t (by rw [hP]; exact List.mem_append_right _ (List.mem_cons_of_mem _ h))
    · intro t ht
      exact hful t ht
  · -- the slab stays partial
    have hres : freeTail { cp with alloc_hash := hash' } s buf =
        { cp with
          partial_slab_list :=
            P1 ++ { s with num_busy_obj := s.num_busy_obj - 1,
                           freelist := buf :: s.freelist } :: P2,
          nr_cur_alloc := cp.nr_cur_alloc - 1,
          alloc_hash := hash' } := by
      simp only [freeTail]
      rw [if_neg hcond1, if_neg hz]
      simp only [hP, setSlab_decomp hneP1 hneP2, setSlab_eq_of_forall_ne hneF,
        setSlab_eq_of_forall_ne hneE]
    rw [hres]
    refine cacheInv_replace P cp _ s
        { s with num_busy_obj := s.num_busy_obj - 1, freelist := buf :: s.freelist }
        ((allSlabs cp).erase s) hinv rfl rfl (List.perm_cons_erase hsAll) ?_ rfl rfl hwf'
        ?_ ?_ ?_ hhe hhm hhn hhc
    · exact (((List.perm_middle.append_left cp.full_slab_list).append_right _).trans
        (List.perm_middle.append_right _)).trans (List.Perm.cons _ hrest)
    · intro t ht
      exact hemp t ht
    · intro t ht
      rcases List.mem_append.mp ht with h | h
      · exact hpar t (by rw [hP]; exact List.mem_append_left _ h)
      · rcases List.mem_cons.mp h with rfl | h'
        · refine ⟨?_, ?_⟩
          · show 0 < s.num_busy_obj - 1
            omega
          · show s.num_busy_obj - 1 < s.num_total_obj
            omega
        · exact hpar t (by rw [hP]; exact List.mem_append_right _ (List.mem_cons_of_mem _ h'))
    · intro t ht
      exact hful t ht

theorem cacheInv_freeToSlab
    (P : Params) (cp : KmemCache) (buf : Nat) (s : Slab) (cp' : KmemCache)
    (hinv : CacheInv P cp)
    (hs : s ∈ allSlabs cp) (hbuf : buf ∈ slabSlots cp.obj_size s)
    (hnf : buf ∉ s.freelist)
    (h : freeToSlab P cp buf = some cp') :
    CacheInv P cp' := by
  have hinv' := hinv
  obtain ⟨ho1, ho2, ho3, hwf, hemp, hpar, hful, hnd, hdisj, hheO, hhmO, hhnO, hhcO⟩ := hinv'
  have hndAll : (allSlabs cp).Nodup := List.Nodup.of_map _ hnd
  obtain ⟨htot2, hble, hlen, hflnd, hflsub, hembed⟩ := hwf s hs
  have hbusy_pos : 0 < s.num_busy_obj := by
    rcases Nat.eq_zero_or_pos s.num_busy_obj with h0 | h0
    · exfalso
      have hlen0 : (slabSlots cp.obj_size s).length ≤ s.freelist.length := by
        rw [slabSlots_length]
        omega
      exact hnf (mem_of_subset_nodup_length s.freelist (slabSlots cp.obj_size s)
        hflnd hflsub (slabSlots_nodup _ _ ho1) hlen0 buf hbuf)
    · exact h0
  have hsplit : s ∈ cp.full_slab_list ∨ s ∈ cp.partial_slab_list ∨
      s ∈ cp.empty_slab_list := by
    simpa [allSlabs, List.mem_append, or_assoc] using hs
  cases hub : cp.use_bufctl with
  | false =>
    obtain ⟨hal, hfit⟩ := hembed hub
    have hrd : buf / P.pgsize * P.pgsize = s.base :=
      rounddown_slot P cp.obj_size s buf hal hfit ho2 hbuf
    have hfind : findSlab cp (buf / P.pgsize * P.pgsize) = some s := by
      rw [hrd]
      exact find?_base_self hnd hs
    rw [freeToSlab_embedded_eq P cp buf hub hfind] at h
    injection h with h
    rw [← h]
    have hhe' : cp.use_bufctl = false → cp.alloc_hash = [] := hheO
    have hhm' : ∀ bc ∈ cp.alloc_hash, ∃ t,
        (t = { s with num_busy_obj := s.num_busy_obj - 1,
                      freelist := buf :: s.freelist } ∨ t ∈ (allSlabs cp).erase s) ∧
        t.base = bc.my_slab ∧ bc.buf_addr ∈ slabSlots cp.obj_size t ∧
        bc.buf_addr ∉ t.freelist := by
      intro bc hbc
      rw [hheO hub] at hbc
      cases hbc
    have hhn' : (cp.alloc_hash.map Bufctl.buf_addr).Nodup := by
      rw [hheO hub]
      exact List.nodup_nil
    have hhc' : cp.use_bufctl = true → ∀ t,
        (t = { s with num_busy_obj := s.num_busy_obj - 1,
                      freelist := buf :: s.freelist } ∨ t ∈ (allSlabs cp).erase s) →
        ∀ a ∈ slabSlots cp.obj_size t, a ∉ t.freelist →
        a ∈ cp.alloc_hash.map Bufctl.buf_addr := by
      intro habs
      rw [hub] at habs
      exact absurd habs Bool.false_ne_true
    rcases hsplit with hpos | hpos | hpos
    · exact cacheInv_freeTail_full P cp cp.alloc_hash s buf hinv hpos hbuf hnf
        hhe' hhm' hhn' hhc'
    · exact cacheInv_freeTail_partialCase P cp cp.alloc_hash s buf hinv hpos hbuf hnf
        hhe' hhm' hhn' hhc'
    · exact absurd (hemp s hpos) (by omega)
  | true =>
    have hbufhash : buf ∈ hashAddrs cp := hhcO hub s hs buf hbuf hnf
    obtain ⟨bc0, hbc0mem, hbc0addr⟩ := List.mem_map.mp hbufhash
    obtain ⟨h1, h2, hhash⟩ := List.append_of_mem hbc0mem
    have hndh : ((h1.map Bufctl.buf_addr) ++ buf :: (h2.map Bufctl.buf_addr)).Nodup := by
      have := hhnO
      rw [show hashAddrs cp = cp.alloc_hash.map Bufctl.buf_addr from rfl, hhash,
        List.map_append, List.map_cons, hbc0addr] at this
      exact this
    have hbufh1 : buf ∉ h1.map Bufctl.buf_addr := by
      rw [List.nodup_append] at hndh
      exact fun hx => hndh.2.2 hx (List.mem_cons_self _ _)
    have hbufh2 : buf ∉ h2.map Bufctl.buf_addr := by
      rw [List.nodup_append, List.nodup_cons] at hndh
      exact hndh.2.1.1
    have hne1 : ∀ b ∈ h1, b.buf_addr ≠ buf := fun b hb he =>
      hbufh1 (he ▸ List.mem_map_of_mem _ hb)
    have hne2 : ∀ b ∈ h2, b.buf_addr ≠ buf := fun b hb he =>
      hbufh2 (he ▸ List.mem_map_of_mem _ hb)
    have hyank : yankBufctl cp.alloc_hash buf = some (bc0, h1 ++ h2) := by
      rw [hhash]
      exact yankBufctl_decomp hne1 hbc0addr
    have hsb : s.base = bc0.my_slab := by
      obtain ⟨t, htAll, htb, hts, htf⟩ := hhmO bc0 hbc0mem
      have hts' : t = s :=
        eq_of_mem_slots_pairwise hdisj htAll hs (hbc0addr ▸ hts) hbuf
      rw [← hts']
      exact htb
    have hfind : findSlab { cp with alloc_hash := h1 ++ h2 } bc0.my_slab = some s := by
      rw [← hsb]
      show (allSlabs cp).find? (fun u => u.base = s.base) = some s
      exact find?_base_self hnd hs
    rw [freeToSlab_bufctl_eq P cp buf hub hyank hfind] at h
    injection h with h
    rw [← h]
    have hhe' : cp.use_bufctl = false → h1 ++ h2 = [] := by
      intro habs
      rw [habs] at hub
      exact absurd hub Bool.false_ne_true
    have Hsub : ∀ b ∈ h1 ++ h2, b ∈ cp.alloc_hash := by
      intro b hb
      rw [hhash]
      rcases List.mem_append.mp hb with hx | hx
      · exact List.mem_append_left _ hx
      · exact List.mem_append_right _ (List.mem_cons_of_mem _ hx)
    have Hne : ∀ b ∈ h1 ++ h2, b.buf_addr ≠ buf := by
      intro b hb
      rcases List.mem_append.mp hb with hx | hx
      · exact hne1 b hx
      · exact hne2 b hx
    have hhn' : ((h1 ++ h2).map Bufctl.buf_addr).Nodup := by
      rw [List.map_append]
      exact List.Nodup.sublist
        (List.Sublist.append_left (List.sublist_cons_self _ _) _) hndh
    have Hrm : ∀ a ∈ hashAddrs cp, a ≠ buf → a ∈ (h1 ++ h2).map Bufctl.buf_addr := by
      intro a ha hane
      rw [show hashAddrs cp = cp.alloc_hash.map Bufctl.buf_addr from rfl, hhash,
        List.map_append, List.map_cons] at ha
      rw [List.map_append]
      rcases List.mem_append.mp ha with hx | hx
      · exact List.mem_append_left _ hx
      · rcases List.mem_cons.mp hx with he | hx'
        · exact absurd (he.trans hbc0addr) hane
        · exact List.mem_append_right _ hx'
    have hhm' : ∀ bc ∈ h1 ++ h2, ∃ t,
        (t = { s with num_busy_obj := s.num_busy_obj - 1,
                      freelist := buf :: s.freelist } ∨ t ∈ (allSlabs cp).erase s) ∧
        t.base = bc.my_slab ∧ bc.buf_addr ∈ slabSlots cp.obj_size t ∧
        bc.buf_addr ∉ t.freelist := by
      intro bc hbc
      obtain ⟨t, htm, htb, hts, htf⟩ := hhmO bc (Hsub bc hbc)
      by_cases hts' : t = s
      · rw [hts'] at htb hts htf
        refine ⟨{ s with num_busy_obj := s.num_busy_obj - 1,
                         freelist := buf :: s.freelist }, Or.inl rfl, htb, hts, ?_⟩
        intro hcon
        rcases List.mem_cons.mp hcon with he | he
        · exact Hne bc hbc he
        · exact htf he
      · exact ⟨t, Or.inr (mem_rest_of_ne htm hts'), htb, hts, htf⟩
    have hhc' : cp.use_bufctl = true → ∀ t,
        (t = { s with num_busy_obj := s.num_busy_obj - 1,
                      freelist := buf :: s.freelist } ∨ t ∈ (allSlabs cp).erase s) →
        ∀ a ∈ slabSlots cp.obj_size t, a ∉ t.freelist →
        a ∈ (h1 ++ h2).map Bufctl.buf_addr := by
      intro _ t htm a ha haf
      rcases htm with rfl | hr
      · have ha' : a ∈ slabSlots cp.obj_size s := ha
        have hanb : a ≠ buf := fun he => haf (he ▸ List.mem_cons_self _ _)
        have haf' : a ∉ s.freelist := fun hc => haf (List.mem_cons_of_mem _ hc)
        exact Hrm a (hhcO hub s hs a ha' haf') hanb
      · have htne : t ≠ s := fun he => not_self_mem_erase hndAll (he ▸ hr)
        have htAll : t ∈ allSlabs cp := List.erase_subset _ _ hr
        have hanb : a ≠ buf := by
          intro he
          subst he
          exact htne (eq_of_mem_slots_pairwise hdisj htAll hs ha hbuf)
        exact Hrm a (hhcO hub t htAll a ha haf) hanb
    rcases hsplit with hpos | hpos | hpos
    · exact cacheInv_freeTail_full P cp (h1 ++ h2) s buf hinv hpos hbuf hnf
        hhe' hhm' hhn' hhc'
    · exact cacheInv_freeTail_partialCase P cp (h1 ++ h2) s buf hinv hpos hbuf hnf
        hhe' hhm' hhn' hhc'
    · exact absurd (hemp s hpos) (by omega)

theorem cacheInv_alloc_from_partialHead
    (P : Params) (cp : KmemCache) (r : Nat) (cp2 : KmemCache) {s : Slab} {ps : List Slab}
    (hinv : CacheInv P cp) (hP : cp.partial_slab_list = s :: ps)
    (h : allocPop cp = some (r, cp2)) :
    CacheInv P cp2 ∧ cp2.obj_size = cp.obj_size ∧
      ∃ t ∈ allSlabs cp2, r ∈ slabSlots cp.obj_size t ∧ r ∉ t.freelist := by
  have hinv' := hinv
  obtain ⟨ho1, ho2, ho3, hwf, hemp, hpar, hful, hnd, hdisj, hheO, hhmO, hhnO, hhcO⟩ := hinv'
  have hsP : s ∈ cp.partial_slab_list := by
    rw [hP]
    exact List.mem_cons_self _ _
  have hsAll : s ∈ allSlabs cp := by
    simp only [allSlabs, List.mem_append]
    exact Or.inl (Or.inr hsP)
  have hndAll : (allSlabs cp).Nodup := List.Nodup.of_map _ hnd
  obtain ⟨htot2, hble, hlen, hflnd, hflsub, hembed⟩ := hwf s hsAll
  obtain ⟨hbpos, hblt⟩ := hpar s hsP
  cases hFL : s.freelist with
  | nil =>
    exfalso
    rw [hFL] at hlen
    simp at hlen
    omega
  | cons r0 rest =>
    rw [allocPop_eq cp hP hFL] at h
    simp only [Option.some.injEq, Prod.mk.injEq] at h
    obtain ⟨rfl, h⟩ := h
    rw [hFL] at hflnd hflsub
    have hr0nrest : r0 ∉ rest := (List.nodup_cons.mp hflnd).1
    have hrestnd : rest.Nodup := (List.nodup_cons.mp hflnd).2
    have hr0slot : r0 ∈ slabSlots cp.obj_size s := hflsub r0 (List.mem_cons_self _ _)
    have hrestsub : ∀ a ∈ rest, a ∈ slabSlots cp.obj_size s := fun a ha =>
      hflsub a (List.mem_cons_of_mem _ ha)
    have hwf' : SlabWF P cp.use_bufctl cp.obj_size
        { s with freelist := rest, num_busy_obj := s.num_busy_obj + 1 } := by
      refine ⟨htot2, ?_, ?_, hrestnd, hrestsub, ?_⟩
      · show s.num_busy_obj + 1 ≤ s.num_total_obj
        omega
      · show rest.length + (s.num_busy_obj + 1) = s.num_total_obj
        rw [hFL] at hlen
        simp only [List.length_cons] at hlen
        omega
      · intro h0
        exact hembed h0
    have hD : (allSlabs cp).Perm
        (s :: ((cp.full_slab_list ++ ps) ++ cp.empty_slab_list)) := by
      have e0 : allSlabs cp =
          (cp.full_slab_list ++ (s :: ps)) ++ cp.empty_slab_list := by
        simp only [allSlabs, hP]
      rw [e0]
      exact List.perm_middle.append_right _
    have hrest : ((cp.full_slab_list ++ ps) ++ cp.empty_slab_list).Perm
        ((allSlabs cp).erase s) :=
      (hD.symm.trans (List.perm_cons_erase hsAll)).cons_inv
    -- the returned slot is busy in the updated slab, wherever it lands
    have hbusyfact : ∀ X : KmemCache,
        { s with freelist := rest, num_busy_obj := s.num_busy_obj + 1 } ∈ allSlabs X →
        ∃ t ∈ allSlabs X, r0 ∈ slabSlots cp.obj_size t ∧ r0 ∉ t.freelist := by
      intro X hX
      exact ⟨_, hX, hr0slot, hr0nrest⟩
    by_cases hub : cp.use_bufctl = true
    · -- bufctl mode: the hash gains the entry for the popped slot
      rw [if_pos hub] at h
      have hr0nothash : r0 ∉ hashAddrs cp := by
        intro hx
        obtain ⟨bc, hbcm, hbca⟩ := List.mem_map.mp hx
        obtain ⟨t, htAll, htb, hts, htf⟩ := hhmO bc hbcm
        have hts' : t = s :=
          eq_of_mem_slots_pairwise hdisj htAll hsAll (hbca ▸ hts) hr0slot
        rw [hts', hFL] at htf
        rw [hbca] at htf
        exact htf (List.mem_cons_self _ _)
      have hhe' : cp.use_bufctl = false → (⟨r0, s.base⟩ : Bufctl) :: cp.alloc_hash = [] := by
        intro habs
        rw [habs] at hub
        exact absurd hub Bool.false_ne_true
      have hhm' : ∀ bc ∈ (⟨r0, s.base⟩ : Bufctl) :: cp.alloc_hash, ∃ t,
          (t = { s with freelist := rest, num_busy_obj := s.num_busy_obj + 1 } ∨
            t ∈ (allSlabs cp).erase s) ∧
          t.base = bc.my_slab ∧ bc.buf_addr ∈ slabSlots cp.obj_size t ∧
          bc.buf_addr ∉ t.freelist := by
        intro bc hbc
        rcases List.mem_cons.mp hbc with rfl | hbc'
        · exact ⟨{ s with freelist := rest, num_busy_obj := s.num_busy_obj + 1 },
            Or.inl rfl, rfl, hr0slot, hr0nrest⟩
        · obtain ⟨t, htAll, htb, hts, htf⟩ := hhmO bc hbc'
          by_cases hts' : t = s
          · rw [hts'] at htb hts htf
            refine ⟨{ s with freelist := rest, num_busy_obj := s.num_busy_obj + 1 },
              Or.inl rfl, htb, hts, ?_⟩
            intro hcon
            rw [hFL] at htf
            exact htf (List.mem_cons_of_mem _ hcon)
          · exact ⟨t, Or.inr (mem_rest_of_ne htAll hts'), htb, hts, htf⟩
      have hhn' : (((⟨r0, s.base⟩ : Bufctl) :: cp.alloc_hash).map Bufctl.buf_addr).Nodup := by
        rw [List.map_cons]
        exact List.nodup_cons.mpr ⟨hr0nothash, hhnO⟩
      have hhc' : cp.use_bufctl = true → ∀ t,
          (t = { s with freelist := rest, num_busy_obj := s.num_busy_obj + 1 } ∨
            t ∈ (allSlabs cp).erase s) →
          ∀ a ∈ slabSlots cp.obj_size t, a ∉ t.freelist →
          a ∈ ((⟨r0, s.base⟩ : Bufctl) :: cp.alloc_hash).map Bufctl.buf_addr := by
        intro _ t htm a ha haf
        rw [List.map_cons]
        rcases htm with rfl | hr
        · have ha' : a ∈ slabSlots cp.obj_size s := ha
          by_cases har : a = r0
          · rw [har]
            exact List.mem_cons_self _ _
          · have haf' : a ∉ s.freelist := by
              rw [hFL]
              intro hc
              rcases List.mem_cons.mp hc with he | he
              · exact har he
              · exact haf he
            exact List.mem_cons_of_mem _ (hhcO hub s hsAll a ha' haf')
        · have htAll : t ∈ allSlabs cp := List.erase_subset _ _ hr
          exact List.mem_cons_of_mem _ (hhcO hub t htAll a ha haf)
      by_cases hmv : s.num_busy_obj + 1 = s.num_total_obj
      · rw [if_pos hmv] at h
        rw [← h]
        refine ⟨?_, rfl, hbusyfact _ ?_⟩
        · refine cacheInv_replace P cp _ s
            { s with freelist := rest, num_busy_obj := s.num_busy_obj + 1 }
            ((allSlabs cp).erase s) hinv rfl rfl (List.perm_cons_erase hsAll)
            ?_ rfl rfl hwf' ?_ ?_ ?_ hhe' hhm' hhn' hhc'
          · exact List.Perm.trans (List.Perm.refl _) (List.Perm.cons _ hrest)
          · intro t ht
            exact hemp t ht
          · intro t ht
            exact hpar t (by rw [hP]; exact List.mem_cons_of_mem _ ht)
          · intro t ht
            rcases List.mem_cons.mp ht with rfl | ht'
            · show s.num_busy_obj + 1 = s.num_total_obj
              exact hmv
            · exact hful t ht'
        · simp only [allSlabs, List.mem_append, List.mem_cons]
          exact Or.inl (Or.inl (Or.inl trivial))
      · rw [if_neg hmv] at h
        rw [← h]
        refine ⟨?_, rfl, hbusyfact _ ?_⟩
        · refine cacheInv_replace P cp _ s
            { s with freelist := rest, num_busy_obj := s.num_busy_obj + 1 }
            ((allSlabs cp).erase s) hinv rfl rfl (List.perm_cons_erase hsAll)
            ?_ rfl rfl hwf' ?_ ?_ ?_ hhe' hhm' hhn' hhc'
          · exact List.Perm.trans (List.perm_middle.append_right _)
              (List.Perm.cons _ hrest)
          · intro t ht
            exact hemp t ht
          · intro t ht
            rcases List.mem_cons.mp ht with rfl | ht'
            · refine ⟨?_, ?_⟩
              · show 0 < s.num_busy_obj + 1
                omega
              · show s.num_busy_obj + 1 < s.num_total_obj
                omega
            · exact hpar t (by rw [hP]; exact List.mem_cons_of_mem _ ht')
          · intro t ht
            exact hful t ht
        · simp only [allSlabs, List.mem_append, List.mem_cons]
          exact Or.inl (Or.inr (Or.inl trivial))
    · -- embedded mode: the hash stays empty
      rw [if_neg hub] at h
      have hub' : cp.use_bufctl = false := by
        cases hx : cp.use_bufctl
        · rfl
        · exact absurd hx hub
      have hhe' : cp.use_bufctl = false → cp.alloc_hash = [] := hheO
      have hhm' : ∀ bc ∈ cp.alloc_hash, ∃ t,
          (t = { s with freelist := rest, num_busy_obj := s.num_busy_obj + 1 } ∨
            t ∈ (allSlabs cp).erase s) ∧
          t.base = bc.my_slab ∧ bc.buf_addr ∈ slabSlots cp.obj_size t ∧
          bc.buf_addr ∉ t.freelist := by
        intro bc hbc
        rw [hheO hub'] at hbc
        cases hbc
      have hhn' : (cp.alloc_hash.map Bufctl.buf_addr).Nodup := by
        rw [hheO hub']
        exact List.nodup_nil
      have hhc' : cp.use_bufctl = true → ∀ t,
          (t = { s with freelist := rest, num_busy_obj := s.num_busy_obj + 1 } ∨
            t ∈ (allSlabs cp).erase s) →
          ∀ a ∈ slabSlots cp.obj_size t, a ∉ t.freelist →
          a ∈ cp.alloc_hash.map Bufctl.buf_addr := by
        intro habs
        rw [hub'] at habs
        exact absurd habs Bool.false_ne_true
      by_cases hmv : s.num_busy_obj + 1 = s.num_total_obj
      · rw [if_pos hmv] at h
        rw [← h]
        refine ⟨?_, rfl, hbusyfact _ ?_⟩
        · refine cacheInv_replace P cp _ s
            { s with freelist := rest, num_busy_obj := s.num_busy_obj + 1 }
            ((allSlabs cp).erase s) hinv rfl rfl (List.perm_cons_erase hsAll)
            ?_ rfl rfl hwf' ?_ ?_ ?_ hhe' hhm' hhn' hhc'
          · exact List.Perm.trans (List.Perm.refl _) (List.Perm.cons _ hrest)
          · intro t ht
            exact hemp t ht
          · intro t ht
            exact hpar t (by rw [hP]; exact List.mem_cons_of_mem _ ht)
          · intro t ht
            rcases List.mem_cons.mp ht with rfl | ht'
            · show s.num_busy_obj + 1 = s.num_total_obj
              exact hmv
            · exact hful t ht'
        · simp only [allSlabs, List.mem_append, List.mem_cons]
          exact Or.inl (Or.inl (Or.inl trivial))
      · rw [if_neg hmv] at h
        rw [← h]
        refine ⟨?_, rfl, hbusyfact _ ?_⟩
        · refine cacheInv_replace P cp _ s
            { s with freelist := rest, num_busy_obj := s.num_busy_obj + 1 }
            ((allSlabs cp).erase s) hinv rfl rfl (List.perm_cons_erase hsAll)
            ?_ rfl rfl hwf' ?_ ?_ ?_ hhe' hhm' hhn' hhc'
          · exact List.Perm.trans (List.perm_middle.append_right _)
              (List.Perm.cons _ hrest)
          · intro t ht
            exact hemp t ht
          · intro t ht
            rcases List.mem_cons.mp ht with rfl | ht'
            · refine ⟨?_, ?_⟩
              · show 0 < s.num_busy_obj + 1
                omega
              · show s.num_busy_obj + 1 < s.num_total_obj
                omega
            · exact hpar t (by rw [hP]; exact List.mem_cons_of_mem _ ht')
          · intro t ht
            exact hful t ht
        · simp only [allSlabs, List.mem_append, List.mem_cons]
          exact Or.inl (Or.inr (Or.inl trivial))

theorem cacheInv_alloc_from_empty
    (P : Params) (cp : KmemCache) (r : Nat) (cp2 : KmemCache) {e : Slab} {es : List Slab}
    (hinv : CacheInv P cp) (hP : cp.partial_slab_list = [])
    (hE : cp.empty_slab_list = e :: es)
    (h : allocPop { cp with empty_slab_list := es, partial_slab_list := [e] } =
      some (r, cp2)) :
    CacheInv P cp2 ∧ cp2.obj_size = cp.obj_size ∧
      ∃ t ∈ allSlabs cp2, r ∈ slabSlots cp.obj_size t ∧ r ∉ t.freelist := by
  have hinv' := hinv
  obtain ⟨ho1, ho2, ho3, hwf, hemp, hpar, hful, hnd, hdisj, hheO, hhmO, hhnO, hhcO⟩ := hinv'
  have hsE : e ∈ cp.empty_slab_list := by
    rw [hE]
    exact List.mem_cons_self _ _
  have hsAll : e ∈ allSlabs cp := by
    simp only [allSlabs, List.mem_append]
    exact Or.inr hsE
  have hndAll : (allSlabs cp).Nodup := List.Nodup.of_map _ hnd
  obtain ⟨htot2, hble, hlen, hflnd, hflsub, hembed⟩ := hwf e hsAll
  have hbusy0 : e.num_busy_obj = 0 := hemp e hsE
  cases hFL : e.freelist with
  | nil =>
    exfalso
    rw [hFL] at hlen
    simp at hlen
    omega
  | cons r0 rest =>
    rw [allocPop_eq _ rfl hFL] at h
    simp only [Option.some.injEq, Prod.mk.injEq] at h
    obtain ⟨rfl, h⟩ := h
    have hmv : ¬ (e.num_busy_obj + 1 = e.num_total_obj) := by omega
    rw [hFL] at hflnd hflsub
    have hr0nrest : r0 ∉ rest := (List.nodup_cons.mp hflnd).1
    have hrestnd : rest.Nodup := (List.nodup_cons.mp hflnd).2
    have hr0slot : r0 ∈ slabSlots cp.obj_size e := hflsub r0 (List.mem_cons_self _ _)
    have hrestsub : ∀ a ∈ rest, a ∈ slabSlots cp.obj_size e := fun a ha =>
      hflsub a (List.mem_cons_of_mem _ ha)
    have hwf' : SlabWF P cp.use_bufctl cp.obj_size
        { e with freelist := rest, num_busy_obj := e.num_busy_obj + 1 } := by
      refine ⟨htot2, ?_, ?_, hrestnd, hrestsub, ?_⟩
      · show e.num_busy_obj + 1 ≤ e.num_total_obj
        omega
      · show rest.length + (e.num_busy_obj + 1) = e.num_total_obj
        rw [hFL] at hlen
        simp only [List.length_cons] at hlen
        omega
      · intro h0
        exact hembed h0
    have hD : (allSlabs cp).Perm (e :: (cp.full_slab_list ++ es)) := by
      have e0 : allSlabs cp = cp.full_slab_list ++ (e :: es) := by
        simp only [allSlabs, hP, hE, List.append_nil]
      rw [e0]
      exact List.perm_middle
    have hrest : (cp.full_slab_list ++ es).Perm ((allSlabs cp).erase e) :=
      (hD.symm.trans (List.perm_cons_erase hsAll)).cons_inv
    have hpnew : ∀ X : KmemCache, allSlabs X =
        (cp.full_slab_list ++
          [{ e with freelist := rest, num_busy_obj := e.num_busy_obj + 1 }]) ++ es →
        (allSlabs X).Perm
          ({ e with freelist := rest, num_busy_obj := e.num_busy_obj + 1 } ::
            (allSlabs cp).erase e) := by
      intro X hX
      rw [hX, List.append_assoc]
      exact List.Perm.trans List.perm_middle (List.Perm.cons _ hrest)
    by_cases hub : cp.use_bufctl = true
    · rw [if_pos hub] at h
      have hr0nothash : r0 ∉ hashAddrs cp := by
        intro hx
        obtain ⟨bc, hbcm, hbca⟩ := List.mem_map.mp hx
        obtain ⟨t, htAll, htb, hts, htf⟩ := hhmO bc hbcm
        have hts' : t = e :=
          eq_of_mem_slots_pairwise hdisj htAll hsAll (hbca ▸ hts) hr0slot
        rw [hts', hFL] at htf
        rw [hbca] at htf
        exact htf (List.mem_cons_self _ _)
      have hhe' : cp.use_bufctl = false → (⟨r0, e.base⟩ : Bufctl) :: cp.alloc_hash = [] := by
        intro habs
        rw [habs] at hub
        exact absurd hub Bool.false_ne_true
      have hhm' : ∀ bc ∈ (⟨r0, e.base⟩ : Bufctl) :: cp.alloc_hash, ∃ t,
          (t = { e with freelist := rest, num_busy_obj := e.num_busy_obj + 1 } ∨
            t ∈ (allSlabs cp).erase e) ∧
          t.base = bc.my_slab ∧ bc.buf_addr ∈ slabSlots cp.obj_size t ∧
          bc.buf_addr ∉ t.freelist := by
        intro bc hbc
        rcases List.mem_cons.mp hbc with rfl | hbc'
        · exact ⟨{ e with freelist := rest, num_busy_obj := e.num_busy_obj + 1 },
            Or.inl rfl, rfl, hr0slot, hr0nrest⟩
        · obtain ⟨t, htAll, htb, hts, htf⟩ := hhmO bc hbc'
          by_cases hts' : t = e
          · rw [hts'] at htb hts htf
            refine ⟨{ e with freelist := rest, num_busy_obj := e.num_busy_obj + 1 },
              Or.inl rfl, htb, hts, ?_⟩
            intro hcon
            rw [hFL] at htf
            exact htf (List.mem_cons_of_mem _ hcon)
          · exact ⟨t, Or.inr (mem_rest_of_ne htAll hts'), htb, hts, htf⟩
      have hhn' : (((⟨r0, e.base⟩ : Bufctl) :: cp.alloc_hash).map Bufctl.buf_addr).Nodup := by
        rw [List.map_cons]
        exact List.nodup_cons.mpr ⟨hr0nothash, hhnO⟩
      have hhc' : cp.use_bufctl = true → ∀ t,
          (t = { e with freelist := rest, num_busy_obj := e.num_busy_obj + 1 } ∨
            t ∈ (allSlabs cp).erase e) →
          ∀ a ∈ slabSlots cp.obj_size t, a ∉ t.freelist →
          a ∈ ((⟨r0, e.base⟩ : Bufctl) :: cp.alloc_hash).map Bufctl.buf_addr := by
        intro _ t htm a ha haf
        rw [List.map_cons]
        rcases htm with rfl | hr
        · have ha' : a ∈ slabSlots cp.obj_size e := ha
          by_cases har : a = r0
          · rw [har]
            exact List.mem_cons_self _ _
          · have haf' : a ∉ e.freelist := by
              rw [hFL]
              intro hc
              rcases List.mem_cons.mp hc with he | he
              · exact har he
              · exact haf he
            exact List.mem_cons_of_mem _ (hhcO hub e hsAll a ha' haf')
        · have htAll : t ∈ allSlabs cp := List.erase_subset _ _ hr
          exact List.mem_cons_of_mem _ (hhcO hub t htAll a ha haf)
      rw [if_neg hmv] at h
      rw [← h]
      refine ⟨?_, rfl, ?_⟩
      · refine cacheInv_replace P cp _ e
          { e with freelist := rest, num_busy_obj := e.num_busy_obj + 1 }
          ((allSlabs cp).erase e) hinv rfl rfl (List.perm_cons_erase hsAll)
          (hpnew _ rfl) rfl rfl hwf' ?_ ?_ ?_ hhe' hhm' hhn' hhc'
        · intro t ht
          exact hemp t (by rw [hE]; exact List.mem_cons_of_mem _ ht)
        · intro t ht
          rcases List.mem_cons.mp ht with rfl | ht'
          · refine ⟨?_, ?_⟩
            · show 0 < e.num_busy_obj + 1
              omega
            · show e.num_busy_obj + 1 < e.num_total_obj
              omega
          · cases ht'
        · intro t ht
          exact hful t ht
      · refine ⟨{ e with freelist := rest, num_busy_obj := e.num_busy_obj + 1 },
          ?_, hr0slot, hr0nrest⟩
        simp only [allSlabs, List.mem_append, List.mem_cons]
        exact Or.inl (Or.inr (Or.inl trivial))
    · rw [if_neg hub] at h
      have hub' : cp.use_bufctl = false := by
        cases hx : cp.use_bufctl
        · rfl
        · exact absurd hx hub
      have hhe' : cp.use_bufctl = false → cp.alloc_hash = [] := hheO
      have hhm' : ∀ bc ∈ cp.alloc_hash, ∃ t,
          (t = { e with freelist := rest, num_busy_obj := e.num_busy_obj + 1 } ∨
            t ∈ (allSlabs cp).erase e) ∧
          t.base = bc.my_slab ∧ bc.buf_addr ∈ slabSlots cp.obj_size t ∧
          bc.buf_addr ∉ t.freelist := by
        intro bc hbc
        rw [hheO hub'] at hbc
        cases hbc
      have hhn' : (cp.alloc_hash.map Bufctl.buf_addr).Nodup := by
        rw [hheO hub']
        exact List.nodup_nil
      have hhc' : cp.use_bufctl = true → ∀ t,
          (t = { e with freelist := rest, num_busy_obj := e.num_busy_obj + 1 } ∨
            t ∈ (allSlabs cp).erase e) →
          ∀ a ∈ slabSlots cp.obj_size t, a ∉ t.freelist →
          a ∈ cp.alloc_hash.map Bufctl.buf_addr := by
        intro habs
        rw [hub'] at habs
        exact absurd habs Bool.false_ne_true
      rw [if_neg hmv] at h
      rw [← h]
      refine ⟨?_, rfl, ?_⟩
      · refine cacheInv_replace P cp _ e
          { e with freelist := rest, num_busy_obj := e.num_busy_obj + 1 }
          ((allSlabs cp).erase e) hinv rfl rfl (List.perm_cons_erase hsAll)
          (hpnew _ rfl) rfl rfl hwf' ?_ ?_ ?_ hhe' hhm' hhn' hhc'
        · intro t ht
          exact hemp t (by rw [hE]; exact List.mem_cons_of_mem _ ht)
        · intro t ht
          rcases List.mem_cons.mp ht with rfl | ht'
          · refine ⟨?_, ?_⟩
            · show 0 < e.num_busy_obj + 1
              omega
            · show e.num_busy_obj + 1 < e.num_total_obj
              omega
          · cases ht'
        · intro t ht
          exact hful t ht
      · refine ⟨{ e with freelist := rest, num_busy_obj := e.num_busy_obj + 1 },
          ?_, hr0slot, hr0nrest⟩
        simp only [allSlabs, List.mem_append, List.mem_cons]
        exact Or.inl (Or.inr (Or.inl trivial))

theorem cacheInv_insert_empty
    (P : Params) (cp : KmemCache) (ns : Slab)
    (hinv : CacheInv P cp)
    (hwfn : SlabWF P cp.use_bufctl cp.obj_size ns)
    (hbusy0 : ns.num_busy_obj = 0)
    (hfl_all : ∀ a ∈ slabSlots cp.obj_size ns, a ∈ ns.freelist)
    (hbase : ns.base ∉ (allSlabs cp).map Slab.base)
    (hdisjn : ∀ t ∈ allSlabs cp, ∀ a ∈ slabSlots cp.obj_size t,
        a ∉ slabSlots cp.obj_size ns) :
    CacheInv P { cp with empty_slab_list := ns :: cp.empty_slab_list } := by
  obtain ⟨ho1, ho2, ho3, hwf, hemp, hpar, hful, hnd, hdisj, hheO, hhmO, hhnO, hhcO⟩ := hinv
  have hP : (allSlabs { cp with empty_slab_list := ns :: cp.empty_slab_list }).Perm
      (ns :: allSlabs cp) := List.perm_middle
  refine ⟨ho1, ho2, ho3, ?_, ?_, hpar, hful, ?_, ?_, hheO, ?_, hhnO, ?_⟩
  · intro t ht
    rcases List.mem_cons.mp (hP.mem_iff.mp ht) with rfl | ht'
    · exact hwfn
    · exact hwf t ht'
  · intro t ht
    rcases List.mem_cons.mp ht with rfl | ht'
    · exact hbusy0
    · exact hemp t ht'
  · have h1 := hP.map Slab.base
    rw [List.map_cons] at h1
    exact h1.symm.nodup (List.nodup_cons.mpr ⟨hbase, hnd⟩)
  · have h2 := hP.map (slabSlots cp.obj_size)
    rw [List.map_cons] at h2
    refine (List.Perm.pairwise_iff (fun h => slots_rel_symmetric h) h2).mpr ?_
    rw [List.pairwise_cons]
    refine ⟨?_, hdisj⟩
    intro B hB a ha hcon
    obtain ⟨t, htm, rfl⟩ := List.mem_map.mp hB
    exact hdisjn t htm a hcon ha
  · intro bc hbc
    obtain ⟨t, htm, htb, hts, htf⟩ := hhmO bc hbc
    exact ⟨t, hP.mem_iff.mpr (List.mem_cons_of_mem _ htm), htb, hts, htf⟩
  · intro hub t ht a ha haf
    rcases List.mem_cons.mp (hP.mem_iff.mp ht) with rfl | ht'
    · exact absurd (hfl_all a ha) haf
    · exact hhcO hub t ht' a ha haf

theorem cacheInv_grow
    (P : Params) (cp : KmemCache) (p : Nat) (cpg : KmemCache)
    (hinv : CacheInv P cp) (hg : GrowOK P cp (some p))
    (h : growFn P cp (some p) = some cpg) :
    CacheInv P cpg := by
  obtain ⟨hgal, hgfresh, hgdisj, hgtot⟩ := hg
  have ho1 : 0 < cp.obj_size := hinv.1
  have ho3 : P.slabRecSz ≤ P.pgsize := hinv.2.2.1
  cases hub : cp.use_bufctl with
  | false =>
    have hfeq : growFn P cp (some p) =
        some { cp with empty_slab_list :=
          (⟨p, (P.pgsize - P.slabRecSz) / cp.obj_size, 0,
            (List.range ((P.pgsize - P.slabRecSz) / cp.obj_size)).map
              (fun i => p + i * cp.obj_size)⟩ : Slab) :: cp.empty_slab_list } := by
      simp [growFn, hub]
    rw [hfeq] at h
    injection h with h
    rw [← h]
    have hslots : slabSlots cp.obj_size
        (⟨p, (P.pgsize - P.slabRecSz) / cp.obj_size, 0,
          (List.range ((P.pgsize - P.slabRecSz) / cp.obj_size)).map
            (fun i => p + i * cp.obj_size)⟩ : Slab) = growSlots P cp p := by
      simp [slabSlots, growSlots, growTotal, hub]
    rw [show (2 : Nat) ≤ growTotal P cp ↔
        2 ≤ (P.pgsize - P.slabRecSz) / cp.obj_size from by
      simp [growTotal, hub]] at hgtot
    refine cacheInv_insert_empty P cp _ hinv ?_ rfl ?_ ?_ ?_
    · refine ⟨hgtot, Nat.zero_le _, ?_, ?_, ?_, ?_⟩
      · show ((List.range ((P.pgsize - P.slabRecSz) / cp.obj_size)).map
          (fun i => p + i * cp.obj_size)).length + 0 =
          (P.pgsize - P.slabRecSz) / cp.obj_size
        simp
      · show ((List.range ((P.pgsize - P.slabRecSz) / cp.obj_size)).map
          (fun i => p + i * cp.obj_size)).Nodup
        exact slabSlots_nodup cp.obj_size
          ⟨p, (P.pgsize - P.slabRecSz) / cp.obj_size, 0, []⟩ ho1
      · intro a ha
        exact ha
      · intro h0
        refine ⟨hgal h0, ?_⟩
        have hd : (P.pgsize - P.slabRecSz) / cp.obj_size * cp.obj_size ≤
            P.pgsize - P.slabRecSz := Nat.div_mul_le_self _ _
        show (P.pgsize - P.slabRecSz) / cp.obj_size * cp.obj_size + P.slabRecSz ≤
          P.pgsize
        omega
    · intro a ha
      exact ha
    · exact hgfresh
    · intro t ht a hat hcon
      rw [hslots] at hcon
      exact hgdisj t ht a hat hcon
  | true =>
    have hfeq : growFn P cp (some p) =
        some { cp with empty_slab_list :=
          (⟨p, cp.import_amt / cp.obj_size, 0,
            ((List.range (cp.import_amt / cp.obj_size)).map
              (fun i => p + i * cp.obj_size)).reverse⟩ : Slab) :: cp.empty_slab_list } := by
      simp [growFn, hub]
    rw [hfeq] at h
    injection h with h
    rw [← h]
    have hslots : slabSlots cp.obj_size
        (⟨p, cp.import_amt / cp.obj_size, 0,
          ((List.range (cp.import_amt / cp.obj_size)).map
            (fun i => p + i * cp.obj_size)).reverse⟩ : Slab) = growSlots P cp p := by
      simp [slabSlots, growSlots, growTotal, hub]
    rw [show (2 : Nat) ≤ growTotal P cp ↔ 2 ≤ cp.import_amt / cp.obj_size from by
      simp [growTotal, hub]] at hgtot
    refine cacheInv_insert_empty P cp _ hinv ?_ rfl ?_ ?_ ?_
    · refine ⟨hgtot, Nat.zero_le _, ?_, ?_, ?_, ?_⟩
      · show (((List.range (cp.import_amt / cp.obj_size)).map
          (fun i => p + i * cp.obj_size)).reverse).length + 0 =
          cp.import_amt / cp.obj_size
        simp
      · show (((List.range (cp.import_amt / cp.obj_size)).map
          (fun i => p + i * cp.obj_size)).reverse).Nodup
        rw [List.nodup_reverse]
        exact slabSlots_nodup cp.obj_size
          ⟨p, cp.import_amt / cp.obj_size, 0, []⟩ ho1
      · intro a ha
        rw [List.mem_reverse] at ha
        exact ha
      · intro h0
        rw [h0] at hub
        exact absurd hub Bool.false_ne_true
    · intro a ha
      rw [List.mem_reverse]
      exact ha
    · exact hgfresh
    · intro t ht a hat hcon
      rw [hslots] at hcon
      exact hgdisj t ht a hat hcon

theorem cacheInv_allocCore
    (P : Params) (cp : KmemCache) (src : Option Nat) (r : Nat) (cp2 : KmemCache)
    (hinv : CacheInv P cp) (hg : GrowOK P cp src)
    (h : allocCore P cp src = some (r, cp2)) :
    CacheInv P cp2 ∧ cp2.obj_size = cp.obj_size ∧
      ∃ t ∈ allSlabs cp2, r ∈ slabSlots cp.obj_size t ∧ r ∉ t.freelist := by
  unfold allocCore at h
  cases hP : cp.partial_slab_list with
  | cons s ps =>
    rw [ensurePartial_of_partialHead P cp src hP] at h
    exact cacheInv_alloc_from_partialHead P cp r cp2 hinv hP h
  | nil =>
    cases hE : cp.empty_slab_list with
    | cons e es =>
      rw [ensurePartial_of_empty P cp src hP hE] at h
      exact cacheInv_alloc_from_empty P cp r cp2 hinv hP hE h
    | nil =>
      cases hsrc : src with
      | none =>
        rw [hsrc] at h
        simp [ensurePartial, hP, hE, growFn] at h
      | some p =>
        rw [hsrc] at h hg
        cases hgeq : growFn P cp (some p) with
        | none => simp [growFn] at hgeq
        | some cpg =>
          obtain ⟨ns, hbusy0, hshape, p', hp', hnsb⟩ :=
            growFn_shape P cp cpg (some p) hgeq
          subst hshape
          have hinvg := cacheInv_grow P cp p _ hinv hg hgeq
          rw [ensurePartial_grow P cp _ (some p) hP hE hgeq] at h
          rw [ensurePartial_of_empty P
            { cp with empty_slab_list := ns :: cp.empty_slab_list }
            (some p) hP rfl] at h
          exact cacheInv_alloc_from_empty P
            { cp with empty_slab_list := ns :: cp.empty_slab_list }
            r cp2 hinvg hP rfl h

theorem cacheInv_allocFromSlab
    (P : Params) (cp : KmemCache) (src : Option Nat) (ctor : Option (Nat → Bool))
    (res : Option Nat) (cp' : KmemCache)
    (hinv : CacheInv P cp) (hg : GrowOK P cp src)
    (h : allocFromSlab P cp src ctor = some (res, cp')) :
    CacheInv P cp' := by
  unfold allocFromSlab at h
  cases hc : allocCore P cp src with
  | none =>
    rw [hc] at h
    cases h
  | some rc =>
    obtain ⟨r, cp1⟩ := rc
    rw [hc] at h
    obtain ⟨hinv1, hosz1, t, htm, hrt, hrf⟩ :=
      cacheInv_allocCore P cp src r cp1 hinv hg hc
    cases ctor with
    | none =>
      simp only [Option.some.injEq, Prod.mk.injEq] at h
      rw [← h.2]
      exact hinv1
    | some f =>
      by_cases hf : f r
      · simp only [hf, eq_self_iff_true, if_true] at h
        cases hft : freeToSlab P cp1 r with
        | none =>
          simp only [hft] at h
          exact Option.noConfusion h
        | some cpf =>
          simp only [hft, Option.some.injEq, Prod.mk.injEq] at h
          rw [← h.2]
          refine cacheInv_freeToSlab P cp1 r t cpf hinv1 htm ?_ hrf hft
          rw [hosz1]
          exact hrt
      · simp only [if_neg hf] at h
        simp only [Option.some.injEq, Prod.mk.injEq] at h
        rw [← h.2]
        exact hinv1

theorem C1Prop_of_CacheInv (P : Params) (cp : KmemCache) (h : CacheInv P cp) :
    C1Prop cp := by
  obtain ⟨ho1, ho2, ho3, hwf, hemp, hpar, hful, -, -, -, -, -, -⟩ := h
  intro t ht
  obtain ⟨htot2, hble, hlen, -, -, -⟩ := hwf t ht
  have hsplit : t ∈ cp.full_slab_list ∨ t ∈ cp.partial_slab_list ∨
      t ∈ cp.empty_slab_list := by
    simpa [allSlabs, List.mem_append, or_assoc] using ht
  refine ⟨hble, by omega, ?_, ?_, ?_⟩
  · constructor
    · intro hx
      exact hemp t hx
    · intro hb0
      rcases hsplit with hx | hx | hx
      · have := hful t hx
        omega
      · have := hpar t hx
        omega
      · exact hx
  · constructor
    · intro hx
      exact hpar t hx
    · intro hb
      rcases hsplit with hx | hx | hx
      · have := hful t hx
        omega
      · exact hx
      · have := hemp t hx
        omega
  · constructor
    · intro hx
      exact hful t hx
    · intro hb
      rcases hsplit with hx | hx | hx
      · exact hx
      · have := hpar t hx
        omega
      · have := hemp t hx
        omega

/-- C1: starting from a well-formed cache, after any completed
alloc-from-slab operation (`__kmem_alloc_from_slab`, with the arena and
geometry contract `GrowOK` for the region a grow may import) or any
completed free-to-slab operation (`__kmem_free_to_slab`, on an object the
slab layer actually handed out: a slot of one of the cache's slabs that is
not on its freelist), every slab of the resulting cache satisfies
`num_busy_obj <= num_total_obj`, its freelist holds exactly
`num_total_obj - num_busy_obj` slots, and it resides on the empty list iff
`busy = 0`, on the partial list iff `0 < busy < total`, and on the full
list iff `busy = total`. -/
theorem C1_slab_list_partition
    (P : Params) (cp : KmemCache) (hinv : CacheInv P cp) :
    (∀ src ctor res cp', GrowOK P cp src →
        allocFromSlab P cp src ctor = some (res, cp') → C1Prop cp') ∧
    (∀ buf s cp', s ∈ allSlabs cp → buf ∈ slabSlots cp.obj_size s →
        buf ∉ s.freelist → freeToSlab P cp buf = some cp' → C1Prop cp') := by
  constructor
  · intro src ctor res cp' hg h
    exact C1Prop_of_CacheInv P cp' (cacheInv_allocFromSlab P cp src ctor res cp' hinv hg h)
  · intro buf s cp' hs hbuf hnf h
    exact C1Prop_of_CacheInv P cp' (cacheInv_freeToSlab P cp buf s cp' hinv hs hbuf hnf h)

/-- Witness for C1 on a concrete embedded cache (PGSIZE 16, record size 8,
object size 4, one partial slab at 0 with slot 0 busy): allocating the
remaining slot moves the slab to the full list, freeing the busy slot
moves it to the empty list, and both results satisfy the partition
property. -/
theorem C1_slab_list_partition_witness :
    CacheInv ⟨16, 8⟩ ⟨4, 16, false, false, [], [⟨0, 2, 1, [4]⟩], [], 1, []⟩ ∧
    C1Prop ⟨4, 16, false, false, [⟨0, 2, 2, []⟩], [], [], 2, []⟩ ∧
    C1Prop ⟨4, 16, false, false, [], [], [⟨0, 2, 0, [0, 4]⟩], 0, []⟩ := by
  refine ⟨by decide, ?_, ?_⟩
  · exact (C1_slab_list_partition ⟨16, 8⟩
      ⟨4, 16, false, false, [], [⟨0, 2, 1, [4]⟩], [], 1, []⟩ (by decide)).1
      none none (some 4) _ (by decide) (by decide)
  · exact (C1_slab_list_partition ⟨16, 8⟩
      ⟨4, 16, false, false, [], [⟨0, 2, 1, [4]⟩], [], 1, []⟩ (by decide)).2
      0 ⟨0, 2, 1, [4]⟩ _ (by decide) (by decide) (by decide) (by decide)

/-- C4 counterexample: a bufctl-mode cache (object size 4, import 8, one
all-free slab at 100) on which a caller allocates object 104 and then
frees it again.  The balanced pair leaves no object outstanding to
callers (`outs = []`), yet the freed pointer was absorbed by the CPU's
loaded magazine without reaching `__kmem_free_to_slab`, so the bufctl
hash index still carries the entry for 104: the hash tracks what the slab
layer handed out, not what callers hold. -/
theorem C4_hash_outstanding_counterexample :
    runOps ⟨16, 8⟩ none 4 [KOp.alloc none, KOp.free 104 true]
        ⟨⟨⟨[]⟩, ⟨[]⟩, 1, 0⟩, ⟨[], [], 0, 0, 1, 0, 0⟩,
          ⟨4, 8, true, false, [], [], [⟨100, 2, 0, [104, 100]⟩], 0, []⟩⟩ [] =
      some (⟨⟨⟨[104]⟩, ⟨[]⟩, 1, 0⟩, ⟨[], [], 0, 0, 1, 0, 0⟩,
        ⟨4, 8, true, false, [], [⟨100, 2, 1, [100]⟩], [], 1, [⟨104, 100⟩]⟩⟩, []) ∧
    CacheInv ⟨16, 8⟩ ⟨4, 8, true, false, [], [], [⟨100, 2, 0, [104, 100]⟩], 0, []⟩ ∧
    (⟨4, 8, true, false, [], [⟨100, 2, 1, [100]⟩], [], 1,
      [⟨104, 100⟩]⟩ : KmemCache).alloc_hash ≠ [] := by
  refine ⟨by decide, by decide, by decide⟩

/-- C4 (amended): what the bufctl hash index tracks exactly is the set of
addresses the slab layer currently has outstanding — the busy slots of
the cache's slabs, which include objects parked in the magazine layer
after their caller freed them.  Both slab-level operations preserve the
exact correspondence: every hash entry names a busy slot of the owning
slab, no address is indexed twice, and every busy slot is indexed; in
embedded mode the hash is always empty. -/
theorem C4_hash_tracks_slab_outstanding
    (P : Params) (cp : KmemCache) (hinv : CacheInv P cp) :
    (∀ src ctor res cp', GrowOK P cp src →
        allocFromSlab P cp src ctor = some (res, cp') →
        (cp'.use_bufctl = false → cp'.alloc_hash = []) ∧
        (hashAddrs cp').Nodup ∧
        (∀ bc ∈ cp'.alloc_hash, ∃ s ∈ allSlabs cp', s.base = bc.my_slab ∧
          bc.buf_addr ∈ slabSlots cp'.obj_size s ∧ bc.buf_addr ∉ s.freelist) ∧
        (cp'.use_bufctl = true → ∀ s ∈ allSlabs cp', ∀ a ∈ slabSlots cp'.obj_size s,
          a ∉ s.freelist → a ∈ hashAddrs cp')) ∧
    (∀ buf s cp', s ∈ allSlabs cp → buf ∈ slabSlots cp.obj_size s →
        buf ∉ s.freelist → freeToSlab P cp buf = some cp' →
        (cp'.use_bufctl = false → cp'.alloc_hash = []) ∧
        (hashAddrs cp').Nodup ∧
        (∀ bc ∈ cp'.alloc_hash, ∃ s ∈ allSlabs cp', s.base = bc.my_slab ∧
          bc.buf_addr ∈ slabSlots cp'.obj_size s ∧ bc.buf_addr ∉ s.freelist) ∧
        (cp'.use_bufctl = true → ∀ s ∈ allSlabs cp', ∀ a ∈ slabSlots cp'.obj_size s,
          a ∉ s.freelist → a ∈ hashAddrs cp')) := by
  constructor
  · intro src ctor res cp' hg h
    obtain ⟨-, -, -, -, -, -, -, -, -, hhe, hhm, hhn, hhc⟩ :=
      cacheInv_allocFromSlab P cp src ctor res cp' hinv hg h
    exact ⟨hhe, hhn, hhm, hhc⟩
  · intro buf s cp' hs hbuf hnf h
    obtain ⟨-, -, -, -, -, -, -, -, -, hhe, hhm, hhn, hhc⟩ :=
      cacheInv_freeToSlab P cp buf s cp' hinv hs hbuf hnf h
    exact ⟨hhe, hhn, hhm, hhc⟩

/-- Witness for C4 (amended) on a concrete bufctl cache: allocating from
the all-free slab at 100 hands out slot 104 and installs exactly its hash
entry, which names the owning slab and a slot absent from its freelist. -/
theorem C4_hash_tracks_slab_outstanding_witness :
    CacheInv ⟨16, 8⟩ ⟨4, 8, true, false, [], [], [⟨100, 2, 0, [104, 100]⟩], 0, []⟩ ∧
    (∀ bc ∈ (⟨4, 8, true, false, [], [⟨100, 2, 1, [100]⟩], [], 1,
        [⟨104, 100⟩]⟩ : KmemCache).alloc_hash,
      ∃ s ∈ allSlabs ⟨4, 8, true, false, [], [⟨100, 2, 1, [100]⟩], [], 1, [⟨104, 100⟩]⟩,
        s.base = bc.my_slab ∧ bc.buf_addr ∈ slabSlots 4 s ∧ bc.buf_addr ∉ s.freelist) := by
  refine ⟨by decide, ?_⟩
  exact ((C4_hash_tracks_slab_outstanding ⟨16, 8⟩
      ⟨4, 8, true, false, [], [], [⟨100, 2, 0, [104, 100]⟩], 0, []⟩ (by decide)).1
      none none (some 104)
      ⟨4, 8, true, false, [], [⟨100, 2, 1, [100]⟩], [], 1, [⟨104, 100⟩]⟩
      (by decide) (by decide)).2.2.1
